import Mathlib

/-!
Verification of the Granola meeting-cache reader (`skills/granola/scripts/granola.ts`).

The script loads a semi-structured JSON cache file, normalizes it into an
in-memory model of meetings, documents and transcripts, and answers queries
over that model (search, detail lookup, transcript lookup, document lookup,
pattern analysis).  This file gives a shallow embedding of that pipeline and
proves the stated properties about it.

Modelling conventions:
* JSON values are the inductive `Json`; JS objects are association lists in
  insertion order (keys produced by `JSON.parse` are unique).
* JS `Date` values are modelled by their observables used in the script:
  the epoch-milliseconds value (used for range comparisons) and the UTC
  year/month fields (used for frequency bucketing).
* The ambient clock (`new Date()`) and the two date-string parsers
  (`new Date(string)`) are injected as explicit parameters `now` / `pd`,
  so the builder is a pure function of its inputs.
* JS `String.prototype.trim` is modelled by `jsTrim` (drop whitespace at
  both ends); `toLowerCase` by `String.toLower` (ASCII letters, faithful on
  the character ranges the script manipulates).
-/

inductive Json where
  | null : Json
  | bool : Bool → Json
  | num : Int → Json
  | str : String → Json
  | arr : List Json → Json
  | obj : List (String × Json) → Json

/-- JS truthiness for the values representable in `Json`
(`NaN` is not modelled; numbers are integral in the cache fields used). -/
def jsFalsy : Json → Bool
  | Json.null => true
  | Json.bool b => !b
  | Json.num n => n == 0
  | Json.str s => s == ""
  | _ => false

/-- `value && typeof value === "object"`: a truthy object, i.e. a JS object
or array (`null` is excluded by truthiness). -/
def jsObjLike : Json → Bool
  | Json.arr _ => true
  | Json.obj _ => true
  | _ => false

/-- First-match association list lookup, the model of JS property lookup on
an object with (unique) string keys. -/
def alistLookup {β : Type} (m : List (String × β)) (k : String) : Option β :=
  (m.find? (fun p => p.1 == k)).map Prod.snd

/-- `m[k] = v` on a JS object: overwrite in place if the key exists
(JS keeps the original insertion position), else append. -/
def alistInsert {β : Type} (m : List (String × β)) (k : String) (v : β) : List (String × β) :=
  if (m.find? (fun p => p.1 == k)).isSome
  then m.map (fun p => if p.1 == k then (k, v) else p)
  else m ++ [(k, v)]

/-- JS property access `value[k]`: field lookup on objects, canonical
numeric-index access on arrays, `undefined` (`none`) elsewhere. -/
def jsGet : Json → String → Option Json
  | Json.obj fields, k => alistLookup fields k
  | Json.arr items, k =>
    (match k.toNat? with
     | some n => if toString n == k then items.get? n else none
     | none => none)
  | _, _ => none

/-- Model of JS `String.prototype.trim`: drop whitespace from both ends. -/
def jsTrim (s : String) : String :=
  String.mk (((s.data.dropWhile Char.isWhitespace).reverse.dropWhile Char.isWhitespace).reverse)

/-- Model of JS `Array.prototype.join(sep)`. -/
def joinSep (sep : String) : List String → String
  | [] => ""
  | [s] => s
  | s :: rest => s ++ sep ++ joinSep sep rest

/-- Model of JS `String.prototype.includes`: substring containment. -/
def strIncludes (s sub : String) : Bool :=
  sub == "" || (s.splitOn sub).length > 1

/-- The `type` discriminator of a rich-text node equals `t`. -/
def typeIs (fields : List (String × Json)) (t : String) : Bool :=
  match alistLookup fields "type" with
  | some (Json.str u) => u == t
  | _ => false

/-- The string-valued `text` field of a rich-text node, if any. -/
def textOf (fields : List (String × Json)) : Option String :=
  match alistLookup fields "text" with
  | some (Json.str t) => some t
  | _ => none

/-- The `content` field of a rich-text node, when it is an array. -/
def contentArr (fields : List (String × Json)) : Option (List Json) :=
  match alistLookup fields "content" with
  | some (Json.arr items) => some items
  | _ => none

/-- Any value found by association lookup is smaller than the field list
(used for termination of the tree walkers). -/
def sizeOfSndLtOfMem (fields : List (String × Json)) (p : String × Json)
    (h : p ∈ fields) : sizeOf p.2 < sizeOf fields := by
  induction fields with
  | nil => cases h
  | cons a l ih =>
    cases h with
    | head =>
      obtain ⟨k, v⟩ := p
      simp only [List.cons.sizeOf_spec, Prod.mk.sizeOf_spec]
      omega
    | tail _ hmem =>
      have hlt := ih hmem
      simp only [List.cons.sizeOf_spec]
      omega

/-- A successful association lookup returns a value smaller than the list. -/
def sizeOfAlistLookupLt (fields : List (String × Json)) (k : String) (v : Json)
    (h : alistLookup fields k = some v) : sizeOf v < sizeOf fields := by
  unfold alistLookup at h
  obtain ⟨p, hp, hv⟩ : ∃ p, fields.find? (fun q => q.1 == k) = some p ∧ p.2 = v := by
    cases hfind : fields.find? (fun q => q.1 == k) with
    | none => rw [hfind] at h; cases h
    | some p => rw [hfind] at h; exact ⟨p, rfl, by cases h; rfl⟩
  have hmem := List.mem_of_find?_eq_some hp
  have := sizeOfSndLtOfMem fields p hmem
  subst hv
  omega

/-- A `content` array is smaller than the node that carries it. -/
def sizeOfContentArrLt (fields : List (String × Json)) (items : List Json)
    (h : contentArr fields = some items) : sizeOf items < sizeOf fields := by
  unfold contentArr at h
  cases hlook : alistLookup fields "content" with
  | none => rw [hlook] at h; cases h
  | some v =>
    rw [hlook] at h
    have hlt := sizeOfAlistLookupLt fields "content" v hlook
    cases v with
    | arr its =>
      cases h
      simp only [Json.arr.sizeOf_spec] at hlt
      omega
    | null => cases h
    | bool b => cases h
    | num n => cases h
    | str s => cases h
    | obj f => cases h

mutual

/-- One item of the structured-notes walker (`extract` in
`extractStructuredNotes`): a `paragraph` with a content array flattens its
children joined by spaces; a `text` node contributes its literal text; any
other node with a content array is flattened recursively; everything else
contributes nothing. -/
def extractSNItem : Json → List String
  | Json.obj fields =>
    (match h : contentArr fields with
     | some items =>
       if typeIs fields "paragraph" then [joinSep " " (extractSNList items)]
       else if typeIs fields "text" then
         (match textOf fields with
          | some t => [t]
          | none => [joinSep " " (extractSNList items)])
       else [joinSep " " (extractSNList items)]
     | none =>
       if typeIs fields "text" then
         (match textOf fields with
          | some t => [t]
          | none => [])
       else [])
  | _ => []
termination_by j => sizeOf j
decreasing_by
  all_goals
    have hlt := sizeOfContentArrLt _ _ h
    simp only [Json.obj.sizeOf_spec]
    omega

/-- The structured-notes walker over a content array. -/
def extractSNList : List Json → List String
  | [] => []
  | item :: rest => extractSNItem item ++ extractSNList rest
termination_by l => sizeOf l
decreasing_by
  · simp only [List.cons.sizeOf_spec]; omega
  · simp only [List.cons.sizeOf_spec]; omega

end

/-- `extractStructuredNotes`: flatten a structured-notes tree.  Returns ""
unless the input is a (truthy) object whose `content` field is an array. -/
def extractStructuredNotes (notesData : Json) : String :=
  if !(jsObjLike notesData) then ""
  else match notesData with
    | Json.obj fields =>
      (match contentArr fields with
       | some items => jsTrim (joinSep " " (extractSNList items))
       | none => "")
    | _ => ""

mutual

/-- The panel walker (`walk` in `extractDocumentPanelContent`): arrays are
walked element-wise; an object contributes its trimmed `text` when it is a
non-blank `text` node, then its `content` field is walked whenever present;
primitives contribute nothing. -/
def panelWalk : Json → List String
  | Json.arr items => panelWalkList items
  | Json.obj fields =>
    (if typeIs fields "text" then
       (match textOf fields with
        | some t => if jsTrim t == "" then [] else [jsTrim t]
        | none => [])
     else [])
    ++
    (match h : alistLookup fields "content" with
     | some c => panelWalk c
     | none => [])
  | _ => []
termination_by j => sizeOf j
decreasing_by
  · simp only [Json.arr.sizeOf_spec]; omega
  · have hlt := sizeOfAlistLookupLt _ _ _ h
    simp only [Json.obj.sizeOf_spec]
    omega

def panelWalkList : List Json → List String
  | [] => []
  | x :: xs => panelWalk x ++ panelWalkList xs
termination_by l => sizeOf l
decreasing_by
  · simp only [List.cons.sizeOf_spec]; omega
  · simp only [List.cons.sizeOf_spec]; omega

end

/-- Ascending insertion for string keys (model of `Array.sort()` on keys). -/
def insertStrAsc (s : String) : List String → List String
  | [] => [s]
  | y :: ys => if s ≤ y then s :: y :: ys else y :: insertStrAsc s ys

/-- Model of JS `Object.keys(x).sort()`. -/
def sortStrAsc : List String → List String
  | [] => []
  | x :: xs => insertStrAsc x (sortStrAsc xs)

/-- The `content` walk of a single panel taken from a panel map: the panel
must be a truthy object; on a JS array the `content` property is absent. -/
def panelMapEntryParts (p : Json) : List String :=
  match p with
  | Json.obj pf =>
    (match alistLookup pf "content" with
     | some c => panelWalk c
     | none => [])
  | _ => []

/-- Paragraph separator used when joining collected panel leaves. -/
def dblNewline : String := "\n\n"

/-- `extractDocumentPanelContent`: falsy input yields ""; an array of panels
is walked panel-by-panel; a panel map is visited in ascending key order,
walking each panel's `content`; the collected leaves are joined with blank
lines and trimmed. -/
def extractDocumentPanelContent (panelData : Json) : String :=
  if jsFalsy panelData then ""
  else match panelData with
    | Json.arr panels => jsTrim (joinSep dblNewline (panelWalkList panels))
    | Json.obj fields =>
      jsTrim (joinSep dblNewline
        ((sortStrAsc (fields.map Prod.fst)).flatMap (fun k =>
          match alistLookup fields k with
          | some p => panelMapEntryParts p
          | none => [])))
    | _ => jsTrim (joinSep dblNewline [])

/-- A JS `Date`, modelled by the observables the script reads: the epoch
milliseconds (range comparisons), and the UTC year and 0-based month
(`getUTCFullYear` / `getUTCMonth`, frequency bucketing). -/
structure JsDate where
  epochMs : Int
  utcYear : Int
  utcMonth : Nat
deriving DecidableEq

/-- `MeetingMetadata` of the script. -/
structure MeetingMetadata where
  id : String
  title : String
  date : JsDate
  duration : Option Int
  participants : List String
  meetingType : String
  platform : Option String
deriving DecidableEq

/-- `MeetingDocument` of the script. -/
structure MeetingDocument where
  id : String
  meetingId : String
  title : String
  content : String
  documentType : String
  createdAt : JsDate
  tags : List String
deriving DecidableEq

/-- `MeetingTranscript` of the script. -/
structure MeetingTranscript where
  meetingId : String
  content : String
  speakers : List String
  language : Option String
  confidence : Option Int
deriving DecidableEq

/-- `CacheData` of the script; the three maps are association lists in
insertion order. -/
structure CacheData where
  meetings : List (String × MeetingMetadata)
  documents : List (String × MeetingDocument)
  transcripts : List (String × MeetingTranscript)
  lastUpdated : Option JsDate
deriving DecidableEq

/-- `Object.entries(x)` for a value guarded by
`x && typeof x === "object"` (otherwise `{}`): object fields in insertion
order, array elements keyed by index, nothing for primitives. -/
def entriesOfJson : Json → List (String × Json)
  | Json.obj fields => fields
  | Json.arr items => items.enum.map (fun p => (toString p.1, p.2))
  | _ => []

/-- `/Z$/` replacement used before date parsing:
`created_at.replace(/Z$/, "+00:00")`. -/
def replaceTrailingZ (s : String) : String :=
  if s.endsWith "Z" then s.dropRight 1 ++ "+00:00" else s

/-- Participant extraction: non-empty `name` fields of the `people` array,
in order (`parseCacheData`, meetings loop). -/
def participantsOf (meetingData : Json) : List String :=
  (match jsGet meetingData "people" with
   | some (Json.arr people) => people
   | _ => []).map (fun person =>
      if jsObjLike person then
        (match jsGet person "name" with
         | some (Json.str n) => n
         | _ => "")
      else "")
  |>.filter (fun n => (jsTrim n).length > 0)

/-- One meeting record of the meetings loop of `parseCacheData`.
`now` is the injected load time, `pd` the injected `new Date(string)`
parser (`none` models an unparsable date, i.e. a thrown `Invalid date`). -/
def buildMeeting (meetingId : String) (meetingData : Json) (now : JsDate)
    (pd : String → Option JsDate) : MeetingMetadata :=
  { id := meetingId
    title :=
      (match jsGet meetingData "title" with
       | some (Json.str t) => if jsTrim t == "" then "Untitled Meeting" else t
       | _ => "Untitled Meeting")
    date :=
      (match jsGet meetingData "created_at" with
       | some (Json.str s) =>
         if jsTrim s == "" then now
         else (match pd (replaceTrailingZ s) with
               | some d => d
               | none => now)
       | _ => now)
    duration := none
    participants := participantsOf meetingData
    meetingType :=
      (match jsGet meetingData "type" with
       | some (Json.str t) => t
       | _ => "meeting")
    platform := none }

/-- The meetings loop of `parseCacheData`: non-object raw entries are
skipped, the rest become meetings keyed by their record key. -/
def buildMeetings (rawDocuments : List (String × Json)) (now : JsDate)
    (pd : String → Option JsDate) : List (String × MeetingMetadata) :=
  rawDocuments.foldl (fun acc p =>
    if jsObjLike p.2 then alistInsert acc p.1 (buildMeeting p.1 p.2 now pd)
    else acc) []

/-- Add to an insertion-ordered set (JS `Set.add` + `Array.from`). -/
def addUnique (l : List String) (s : String) : List String :=
  if l.contains s then l else l ++ [s]

/-- First of the candidate fields `content`, `text`, `transcript` that is a
non-blank string (the `find` over mapped values in the transcripts loop). -/
def firstNonblankStr : List (Option Json) → Option String
  | [] => none
  | some (Json.str v) :: rest =>
    if jsTrim v == "" then firstNonblankStr rest else some v
  | _ :: rest => firstNonblankStr rest

/-- The content parts and speakers collected from one raw transcript entry:
array entries are speech segments with optional `text` / `source`; object
entries carry one content field and an optional `speakers` array;
primitives yield nothing. -/
def transcriptParts (transcriptRaw : Json) : List String × List String :=
  match transcriptRaw with
  | Json.arr segments =>
    segments.foldl (fun acc segment =>
      if jsObjLike segment then
        (let acc1 :=
          (match jsGet segment "text" with
           | some (Json.str t) =>
             if jsTrim t == "" then acc.1 else acc.1 ++ [jsTrim t]
           | _ => acc.1)
         let acc2 :=
          (match jsGet segment "source" with
           | some (Json.str s) =>
             if jsTrim s == "" then acc.2 else addUnique acc.2 (jsTrim s)
           | _ => acc.2)
         (acc1, acc2))
      else acc) ([], [])
  | Json.obj fields =>
    (let contentPart :=
      (match firstNonblankStr
        [alistLookup fields "content", alistLookup fields "text",
         alistLookup fields "transcript"] with
       | some v => [v]
       | none => [])
     let speakers :=
      (match alistLookup fields "speakers" with
       | some (Json.arr sp) =>
         sp.foldl (fun acc speaker =>
           match speaker with
           | Json.str s => if jsTrim s == "" then acc else addUnique acc (jsTrim s)
           | _ => acc) []
       | _ => [])
     (contentPart, speakers))
  | _ => ([], [])

/-- The transcripts loop of `parseCacheData`: an entry is stored only when
at least one content part was collected. -/
def buildTranscripts (rawTranscripts : List (String × Json)) :
    List (String × MeetingTranscript) :=
  rawTranscripts.foldl (fun acc p =>
    let parts := transcriptParts p.2
    if parts.1.length > 0 then
      alistInsert acc p.1
        { meetingId := p.1
          content := jsTrim (joinSep " " parts.1)
          speakers := parts.2
          language := none
          confidence := none }
    else acc) []

/-- The non-blank string value of field `k` of `j`, if any
(`typeof x === "string" && x.trim()`). -/
def nonblankStrField (j : Json) (k : String) : Option String :=
  match jsGet j k with
  | some (Json.str s) => if jsTrim s == "" then none else some s
  | _ => none

/-- The notes part of a document's content, in the strict priority order of
the documents loop: `notes_plain`, else `notes_markdown`, else structured
extraction of a `notes` object (kept only when non-empty). -/
def notesParts (docData : Json) : List String :=
  match nonblankStrField docData "notes_plain" with
  | some p => [p]
  | none =>
    match nonblankStrField docData "notes_markdown" with
    | some m => [m]
    | none =>
      match jsGet docData "notes" with
      | some notesJson =>
        if jsObjLike notesJson then
          (let s := extractStructuredNotes notesJson
           if s == "" then [] else [s])
        else []
      | none => []

/-- The unconditional `Overview:` / `Summary:` lines appended to a
document's content parts. -/
def ovsParts (docData : Json) : List String :=
  (match nonblankStrField docData "overview" with
   | some o => ["Overview: " ++ o]
   | none => []) ++
  (match nonblankStrField docData "summary" with
   | some s => ["Summary: " ++ s]
   | none => [])

/-- The full content-parts list of the documents loop: the notes part,
panel-extraction fallback when enabled and nothing usable was found, then
the Overview/Summary lines. -/
def buildDocParts (docData : Json) (documentPanels : Json) (docId : String)
    (parsePanels : Bool) : List String :=
  let base := notesParts docData
  let hasContent := base.any (fun s => (jsTrim s).length > 0)
  let withPanel :=
    if parsePanels && !hasContent then
      (match jsGet documentPanels docId with
       | some p =>
         (let pt := extractDocumentPanelContent p
          if pt == "" then base else base ++ [pt])
       | none => base)
    else base
  withPanel ++ ovsParts docData

/-- A built document's content: parts joined with blank lines, trimmed. -/
def buildDocContent (docData : Json) (documentPanels : Json) (docId : String)
    (parsePanels : Bool) : String :=
  jsTrim (joinSep dblNewline (buildDocParts docData documentPanels docId parsePanels))

/-- The document record built for a meeting. -/
def builtDocRecord (docId : String) (docData : Json) (documentPanels : Json)
    (parsePanels : Bool) (meeting : MeetingMetadata) : MeetingDocument :=
  { id := docId
    meetingId := docId
    title := meeting.title
    content := buildDocContent docData documentPanels docId parsePanels
    documentType := "meeting_notes"
    createdAt := meeting.date
    tags := [] }

/-- The documents loop of `parseCacheData`: a document is created only when
a meeting with the same id exists. -/
def buildDocuments (rawDocuments : List (String × Json)) (documentPanels : Json)
    (meetings : List (String × MeetingMetadata)) (parsePanels : Bool) :
    List (String × MeetingDocument) :=
  rawDocuments.foldl (fun acc p =>
    if jsObjLike p.2 then
      (match alistLookup meetings p.1 with
       | some meeting =>
         alistInsert acc p.1 (builtDocRecord p.1 p.2 documentPanels parsePanels meeting)
       | none => acc)
    else acc) []

/-- The raw `documents` entry list of a raw cache object. -/
def rawDocEntries (rawData : Json) : List (String × Json) :=
  entriesOfJson ((jsGet rawData "documents").getD Json.null)

/-- The raw `transcripts` entry list of a raw cache object. -/
def rawTranscriptEntries (rawData : Json) : List (String × Json) :=
  entriesOfJson ((jsGet rawData "transcripts").getD Json.null)

/-- `parseCacheData`: normalize a raw cache object into the in-memory
model.  `now` is the injected load time; `pd` the injected date parser. -/
def parseCacheData (rawData : Json) (parsePanels : Bool) (now : JsDate)
    (pd : String → Option JsDate) : CacheData :=
  let rawDocuments := rawDocEntries rawData
  let meetings := buildMeetings rawDocuments now pd
  let transcripts := buildTranscripts (rawTranscriptEntries rawData)
  let documentPanels := (jsGet rawData "documentPanels").getD Json.null
  let documents := buildDocuments rawDocuments documentPanels meetings parsePanels
  { meetings := meetings
    documents := documents
    transcripts := transcripts
    lastUpdated := some now }

/-- JS `toLowerCase` model. -/
def jsToLower (s : String) : String := s.toLower

/-- One meeting's search score, accumulated exactly as in `searchMeetings`:
+2 for a title match, +1 per matching participant, +1 for a transcript
match under the meeting's id (all case-insensitive substring tests). -/
def scoreOf (data : CacheData) (queryLower : String) (meetingId : String)
    (m : MeetingMetadata) : Nat :=
  let s1 := if strIncludes (jsToLower m.title) queryLower then 2 else 0
  let s2 := m.participants.foldl
    (fun acc participant =>
      if strIncludes (jsToLower participant) queryLower then acc + 1 else acc) s1
  match alistLookup data.transcripts meetingId with
  | some t => if strIncludes (jsToLower t.content) queryLower then s2 + 1 else s2
  | none => s2

/-- A scored search result. -/
structure ScoredMeeting where
  score : Nat
  meeting : MeetingMetadata
deriving DecidableEq

/-- Stable descending insertion by a numeric key: the new element goes
after every element with an equal-or-larger key (model of the stable JS
`sort((a, b) => b.key - a.key)`). -/
def insertDescBy {α : Type} (key : α → Nat) (x : α) : List α → List α
  | [] => [x]
  | y :: ys => if key y < key x then x :: y :: ys else y :: insertDescBy key x ys

/-- Stable descending sort by a numeric key. -/
def stableSortDescBy {α : Type} (key : α → Nat) (l : List α) : List α :=
  l.foldl (fun acc x => insertDescBy key x acc) []

/-- `searchMeetings`: score every meeting, keep positive scores, sort by
score descending (stable), truncate to `Math.max(0, limit)`. -/
def searchMeetings (data : CacheData) (query : String) (limit : Int) :
    List ScoredMeeting :=
  let queryLower := jsToLower query
  let scored := data.meetings.foldl (fun acc p =>
    let sc := scoreOf data queryLower p.1 p.2
    if sc > 0 then acc ++ [{ score := sc, meeting := p.2 }] else acc) []
  (stableSortDescBy ScoredMeeting.score scored).take (max 0 limit).toNat

/-- The detail payload assembled by the `get-meeting-details` command. -/
structure MeetingDetailsPayload where
  id : String
  title : String
  date : JsDate
  participants : List String
  meetingType : String
  platform : Option String
  duration : Option Int
  documents : Nat
  transcriptAvailable : Bool
deriving DecidableEq

/-- `get-meeting-details` lookup: `none` is the normal not-found result. -/
def getMeetingDetails (data : CacheData) (meetingId : String) :
    Option MeetingDetailsPayload :=
  match alistLookup data.meetings meetingId with
  | none => none
  | some m => some
    { id := m.id
      title := m.title
      date := m.date
      participants := m.participants
      meetingType := m.meetingType
      platform := m.platform
      duration := m.duration
      documents := ((data.documents.map Prod.snd).filter
        (fun doc => doc.meetingId == meetingId)).length
      transcriptAvailable := (alistLookup data.transcripts meetingId).isSome }

/-- The transcript payload assembled by `get-meeting-transcript`. -/
structure TranscriptPayload where
  meetingId : String
  title : String
  speakers : List String
  language : Option String
  confidence : Option Int
  content : String
deriving DecidableEq

/-- `get-meeting-transcript` lookup: `none` is the normal not-found
result; the title falls back to the raw id when the meeting is missing. -/
def getMeetingTranscript (data : CacheData) (meetingId : String) :
    Option TranscriptPayload :=
  match alistLookup data.transcripts meetingId with
  | none => none
  | some t => some
    { meetingId := meetingId
      title :=
        (match alistLookup data.meetings meetingId with
         | some m => m.title
         | none => meetingId)
      speakers := t.speakers
      language := t.language
      confidence := t.confidence
      content := t.content }

/-- `get-meeting-documents` lookup: all documents whose `meetingId`
matches, in map order; the empty list is the normal not-found result. -/
def getMeetingDocuments (data : CacheData) (meetingId : String) :
    List MeetingDocument :=
  (data.documents.map Prod.snd).filter (fun doc => doc.meetingId == meetingId)

/-- Increment a counter in an insertion-ordered counts map
(`counts[k] = (counts[k] || 0) + 1`). -/
def bump (m : List (String × Nat)) (k : String) : List (String × Nat) :=
  if (m.find? (fun p => p.1 == k)).isSome
  then m.map (fun p => if p.1 == k then (p.1, p.2 + 1) else p)
  else m ++ [(k, 1)]

/-- `analyzeParticipantPatterns` result. -/
structure ParticipantAnalysis where
  meetingCount : Nat
  topParticipants : List (String × Nat)
deriving DecidableEq

/-- `analyzeParticipantPatterns`: per-participant meeting counts over the
filtered meetings, sorted descending (stable). -/
def analyzeParticipantPatterns (meetings : List MeetingMetadata) :
    ParticipantAnalysis :=
  let counts := meetings.foldl (fun acc m =>
    m.participants.foldl (fun a participant => bump a participant) acc) []
  { meetingCount := meetings.length
    topParticipants := stableSortDescBy Prod.snd counts }

/-- Zero-padded month used in the `frequency` bucket key
(`String(m).padStart(2, "0")`). -/
def pad2 (n : Nat) : String :=
  let s := toString n
  if s.length < 2 then "0" ++ s else s

/-- The UTC year-month bucket key of a date. -/
def monthKey (d : JsDate) : String :=
  toString d.utcYear ++ "-" ++ pad2 (d.utcMonth + 1)

/-- `analyzeFrequencyPatterns` result. -/
structure FrequencyAnalysis where
  meetingCount : Nat
  byMonth : List (String × Nat)
  averagePerMonth : Rat
deriving DecidableEq

/-- `analyzeFrequencyPatterns`: bucket by UTC year-month; the average
divides the total meeting count by the number of populated buckets. -/
def analyzeFrequencyPatterns (meetings : List MeetingMetadata) :
    FrequencyAnalysis :=
  let byMonth := meetings.foldl (fun acc m => bump acc (monthKey m.date)) []
  { meetingCount := meetings.length
    byMonth := byMonth
    averagePerMonth :=
      if byMonth.length > 0
      then (meetings.length : Rat) / (byMonth.length : Rat)
      else 0 }

/-- `TOPIC_STOP_WORDS` of the script. -/
def topicStopWords : List String := ["meeting", "call", "sync", "with"]

/-- A character kept by `word.replace(/[^a-z0-9_-]/g, "")`. -/
def isTopicChar (c : Char) : Bool :=
  (('a' ≤ c) && (c ≤ 'z')) || (('0' ≤ c) && (c ≤ '9')) || c == '_' || c == '-'

/-- Strip every character outside `[a-z0-9_-]`. -/
def stripTopicChars (w : String) : String :=
  String.mk (w.data.filter isTopicChar)

/-- The topic tokens of one title: lowercase, split on whitespace, strip
disallowed characters, keep tokens longer than 3 that are not stop words.
(The JS split is on `/\s+/`; splitting on each whitespace character differs
from it only by empty tokens, which the length filter discards.) -/
def topicWords (title : String) : List String :=
  (((jsToLower title).split (fun c => c.isWhitespace)).map stripTopicChars).filter
    (fun w => (3 < w.length) && !(topicStopWords.contains w))

/-- `analyzeTopicPatterns` result. -/
structure TopicAnalysis where
  meetingCount : Nat
  topics : List (String × Nat)
deriving DecidableEq

/-- `analyzeTopicPatterns`: count topic tokens over all filtered meeting
titles, sorted descending (stable). -/
def analyzeTopicPatterns (meetings : List MeetingMetadata) : TopicAnalysis :=
  let counts := meetings.foldl (fun acc m =>
    (topicWords m.title).foldl (fun a w => bump a w) acc) []
  { meetingCount := meetings.length
    topics := stableSortDescBy Prod.snd counts }

/-- The empty model returned for a missing cache file. -/
def emptyCacheData (now : JsDate) : CacheData :=
  { meetings := [], documents := [], transcripts := [], lastUpdated := some now }

/-- Error raised on malformed JSON (`JSON.parse` throw, fatal). -/
def jsonParseError : String := "JSON parse error"

/-- Error raised by property access on `null` (a `TypeError`, fatal). -/
def nullAccessError : String := "TypeError: cannot read properties of null"

/-- `loadCache`: a missing file (`file = none`) degrades to the empty
model; otherwise the contents are parsed (`parseJson` models `JSON.parse`,
`none` = malformed input, fatal), a string-valued `cache` field is parsed
again and its `state` object preferred, and the result is normalized. -/
def loadCache (file : Option String) (parsePanels : Bool) (now : JsDate)
    (pd : String → Option JsDate) (parseJson : String → Option Json) :
    Except String CacheData :=
  match file with
  | none => Except.ok (emptyCacheData now)
  | some contents =>
    match parseJson contents with
    | none => Except.error jsonParseError
    | some Json.null => Except.error nullAccessError
    | some parsed =>
      match jsGet parsed "cache" with
      | some (Json.str cacheStr) =>
        (match parseJson cacheStr with
         | none => Except.error jsonParseError
         | some Json.null => Except.error nullAccessError
         | some nested =>
           (match jsGet nested "state" with
            | some st =>
              if jsObjLike st
              then Except.ok (parseCacheData st parsePanels now pd)
              else Except.ok (parseCacheData nested parsePanels now pd)
            | none => Except.ok (parseCacheData nested parsePanels now pd)))
      | _ => Except.ok (parseCacheData parsed parsePanels now pd)

/-- Validation error for `--query`. -/
def errQueryRequired : String := "--query is required"

/-- Validation error for `--limit`. -/
def errLimitPositive : String := "--limit must be a positive number"

/-- Validation error for `--meeting-id`. -/
def errMeetingIdRequired : String := "--meeting-id is required"

/-- Validation error for `--pattern-type`. -/
def errPatternTypeRequired : String := "--pattern-type is required"

/-- Validation error for an unknown `--pattern-type`. -/
def errPatternTypeInvalid : String :=
  "--pattern-type must be one of: topics, participants, frequency"

/-- Validation error for an unparsable range date. -/
def errInvalidDate : String := "Invalid date value"

/-- The `search-meetings` handler of `main`.  `limitArg = none` models an
absent `--limit` flag (default 10); `some none` a value whose `Number(...)`
conversion is `NaN`; `some (some q)` the converted number.  Validation
rejects `NaN` and non-positive limits before the query runs; `slice`
truncates a fractional accepted limit. -/
def runSearch (data : CacheData) (query : String) (limitArg : Option (Option Rat)) :
    Except String (List ScoredMeeting) :=
  let limit : Option Rat := match limitArg with
    | none => some 10
    | some v => v
  if query == "" then Except.error errQueryRequired
  else match limit with
    | none => Except.error errLimitPositive
    | some l =>
      if l ≤ 0 then Except.error errLimitPositive
      else Except.ok (searchMeetings data query l.floor)

/-- The `get-meeting-details` handler of `main`. -/
def runGetMeetingDetails (data : CacheData) (meetingId : String) :
    Except String (Option MeetingDetailsPayload) :=
  if meetingId == "" then Except.error errMeetingIdRequired
  else Except.ok (getMeetingDetails data meetingId)

/-- The `get-meeting-transcript` handler of `main`. -/
def runGetMeetingTranscript (data : CacheData) (meetingId : String) :
    Except String (Option TranscriptPayload) :=
  if meetingId == "" then Except.error errMeetingIdRequired
  else Except.ok (getMeetingTranscript data meetingId)

/-- The `get-meeting-documents` handler of `main`. -/
def runGetMeetingDocuments (data : CacheData) (meetingId : String) :
    Except String (List MeetingDocument) :=
  if meetingId == "" then Except.error errMeetingIdRequired
  else Except.ok (getMeetingDocuments data meetingId)

/-- `parseDateRange`: no bounds means no filtering; otherwise both bounds
are parsed (defaulting the missing one), and an unparsable date aborts with
a validation error (`parseRangeDate` throw). -/
def parseDateRange (pd : String → Option JsDate)
    (startDateRaw endDateRaw : Option String) :
    Except String (Option (JsDate × JsDate)) :=
  match startDateRaw, endDateRaw with
  | none, none => Except.ok none
  | s, e =>
    match pd (s.getD "1900-01-01") with
    | none => Except.error errInvalidDate
    | some ds =>
      match pd (e.getD "2100-01-01") with
      | none => Except.error errInvalidDate
      | some de => Except.ok (some (ds, de))

/-- The tagged result of `analyze-meeting-patterns`. -/
inductive PatternAnalysis where
  | participants : ParticipantAnalysis → PatternAnalysis
  | frequency : FrequencyAnalysis → PatternAnalysis
  | topics : TopicAnalysis → PatternAnalysis
deriving DecidableEq

/-- The `analyze-meeting-patterns` handler of `main`: validates the kind
and the dates, filters meetings to the inclusive range (comparison on the
epoch value, as JS `Date` comparison), then dispatches. -/
def analyzeMeetingPatterns (data : CacheData) (patternTypeRaw : String)
    (startDate endDate : Option String) (pd : String → Option JsDate) :
    Except String PatternAnalysis :=
  if patternTypeRaw == "" then Except.error errPatternTypeRequired
  else if !(["participants", "frequency", "topics"].contains patternTypeRaw)
  then Except.error errPatternTypeInvalid
  else match parseDateRange pd startDate endDate with
    | Except.error e => Except.error e
    | Except.ok range =>
      let meetings := (data.meetings.map Prod.snd).filter (fun m =>
        match range with
        | none => true
        | some r => (r.1.epochMs ≤ m.date.epochMs) && (m.date.epochMs ≤ r.2.epochMs))
      if patternTypeRaw == "participants"
      then Except.ok (PatternAnalysis.participants (analyzeParticipantPatterns meetings))
      else if patternTypeRaw == "frequency"
      then Except.ok (PatternAnalysis.frequency (analyzeFrequencyPatterns meetings))
      else Except.ok (PatternAnalysis.topics (analyzeTopicPatterns meetings))

/-- The empty analysis produced for each valid pattern kind. -/
def emptyPatternResult (patternTypeRaw : String) : PatternAnalysis :=
  if patternTypeRaw == "participants"
  then PatternAnalysis.participants { meetingCount := 0, topParticipants := [] }
  else if patternTypeRaw == "frequency"
  then PatternAnalysis.frequency { meetingCount := 0, byMonth := [], averagePerMonth := 0 }
  else PatternAnalysis.topics { meetingCount := 0, topics := [] }

/-- Spec-side score formula: `2*(title match) + (number of matching
participants) + (1 if the transcript stored under the meeting's id
matches)`, all case-insensitive substring tests. -/
def specScore (data : CacheData) (query : String) (meetingId : String)
    (m : MeetingMetadata) : Nat :=
  2 * (if strIncludes (jsToLower m.title) (jsToLower query) then 1 else 0)
  + m.participants.countP (fun participant =>
      strIncludes (jsToLower participant) (jsToLower query))
  + (match alistLookup data.transcripts meetingId with
     | some t => if strIncludes (jsToLower t.content) (jsToLower query) then 1 else 0
     | none => 0)

/-- Spec-side scored candidate list: every meeting with a positive score,
in map insertion order. -/
def specScoredList (data : CacheData) (query : String) : List ScoredMeeting :=
  data.meetings.filterMap (fun p =>
    let sc := specScore data query p.1 p.2
    if sc > 0 then some { score := sc, meeting := p.2 } else none)

/-- Count stored under a key of a counts map, 0 when absent. -/
def alistLookupCount (m : List (String × Nat)) (k : String) : Nat :=
  (alistLookup m k).getD 0

/-- Top-level `content` array of a structured-notes tree, when present. -/
def contentArrJ : Json → Option (List Json)
  | Json.obj fields => contentArr fields
  | _ => none

theorem alistLookup_cons {β : Type} (p : String × β) (m : List (String × β)) (k : String) :
    alistLookup (p :: m) k = if p.1 == k then some p.2 else alistLookup m k := by
  unfold alistLookup
  rw [List.find?_cons]
  split <;> simp_all

theorem alistLookup_map_overwrite_ne {β : Type} (m : List (String × β)) (k : String)
    (v : β) (k2 : String) (h : k2 ≠ k) :
    alistLookup (m.map (fun p => if p.1 == k then (k, v) else p)) k2
      = alistLookup m k2 := by
  induction m with
  | nil => rfl
  | cons p m ih =>
    rw [List.map_cons, alistLookup_cons, alistLookup_cons]
    by_cases hpk : p.1 = k
    · have hb : (p.1 == k) = true := by simp [hpk]
      rw [hb]
      simp only [if_true]
      have h1 : ((k, v).1 == k2) = false := by simp [Ne.symm h]
      have h2 : (p.1 == k2) = false := by simp [hpk, Ne.symm h]
      simp only [h1, h2, Bool.false_eq_true, if_neg, not_false_iff]
      exact ih
    · have hb : (p.1 == k) = false := by simp [hpk]
      rw [hb]
      simp only [Bool.false_eq_true, if_neg, not_false_iff]
      by_cases hpk2 : p.1 = k2
      · simp [hpk2]
      · have h2 : (p.1 == k2) = false := by simp [hpk2]
        simp only [h2, Bool.false_eq_true, if_neg, not_false_iff]
        exact ih

theorem alistLookup_map_overwrite_eq {β : Type} (m : List (String × β)) (k : String)
    (v : β) (h : (m.find? (fun p => p.1 == k)).isSome) :
    alistLookup (m.map (fun p => if p.1 == k then (k, v) else p)) k = some v := by
  induction m with
  | nil => simp at h
  | cons p m ih =>
    rw [List.map_cons, alistLookup_cons]
    by_cases hpk : p.1 = k
    · have hb : (p.1 == k) = true := by simp [hpk]
      rw [hb]
      simp
    · have hb : (p.1 == k) = false := by simp [hpk]
      rw [hb]
      simp only [hb, Bool.false_eq_true, if_neg, not_false_iff]
      apply ih
      rw [List.find?_cons] at h
      simp only [hb] at h
      exact h

theorem alistLookup_append_single {β : Type} (m : List (String × β)) (k : String)
    (v : β) (k2 : String) :
    alistLookup (m ++ [(k, v)]) k2
      = if (alistLookup m k2).isSome then alistLookup m k2
        else if k == k2 then some v else none := by
  induction m with
  | nil =>
    rw [List.nil_append]
    rw [alistLookup_cons]
    simp [alistLookup]
  | cons p m ih =>
    rw [List.cons_append, alistLookup_cons, alistLookup_cons]
    by_cases hpk : p.1 = k2
    · simp [hpk]
    · have hb : (p.1 == k2) = false := by simp [hpk]
      rw [hb]
      simp only [Bool.false_eq_true, if_neg, not_false_iff]
      exact ih

theorem alistLookup_insert {β : Type} (m : List (String × β)) (k : String) (v : β)
    (k2 : String) :
    alistLookup (alistInsert m k v) k2 = if k2 = k then some v else alistLookup m k2 := by
  unfold alistInsert
  split
  case isTrue hsome =>
    by_cases hk2 : k2 = k
    · subst hk2
      rw [if_pos rfl]
      exact alistLookup_map_overwrite_eq m k2 v hsome
    · rw [if_neg hk2]
      exact alistLookup_map_overwrite_ne m k v k2 hk2
  case isFalse hnone =>
    have hlk : alistLookup m k = none := by
      unfold alistLookup
      cases hf : m.find? (fun p => p.1 == k) with
      | none => rfl
      | some p => rw [hf] at hnone; simp at hnone
    rw [alistLookup_append_single]
    by_cases hk2 : k2 = k
    · subst hk2
      rw [hlk]
      simp
    · have hb : (k == k2) = false := by simp [Ne.symm hk2]
      rw [hb, if_neg hk2]
      simp only [Bool.false_eq_true, if_neg, not_false_iff]
      cases hl2 : alistLookup m k2 <;> simp

/-- A fold preserves any invariant preserved by each step. -/
theorem foldl_preserves {α β : Type} (P : β → Prop) (f : β → α → β) (l : List α)
    (acc : β) (hacc : P acc) (hstep : ∀ b a, a ∈ l → P b → P (f b a)) :
    P (l.foldl f acc) := by
  induction l generalizing acc with
  | nil => exact hacc
  | cons x xs ih =>
    exact ih (f acc x) (hstep acc x (List.mem_cons_self x xs) hacc)
      (fun b a ha hb => hstep b a (List.mem_cons_of_mem x ha) hb)

theorem dropWhile_head_false {α : Type} (p : α → Bool) (l : List α) (a : α) (t : List α)
    (h : l.dropWhile p = a :: t) : p a = false := by
  induction l with
  | nil => cases h
  | cons b l ih =>
    rw [List.dropWhile_cons] at h
    split at h
    · exact ih h
    · cases h; simp_all

theorem jsTrim_eq_empty_iff (s : String) :
    jsTrim s = "" ↔ ∀ c ∈ s.data, c.isWhitespace := by
  unfold jsTrim
  constructor
  · intro h c hc
    have hdata : (((s.data.dropWhile Char.isWhitespace).reverse.dropWhile
        Char.isWhitespace).reverse) = [] := by
      have := congrArg String.data h
      simpa using this
    rw [List.reverse_eq_nil_iff, List.dropWhile_eq_nil_iff] at hdata
    have hd : ∀ x ∈ s.data.dropWhile Char.isWhitespace, x.isWhitespace = true := by
      intro x hx
      exact hdata x (List.mem_reverse.mpr hx)
    have hsplit := List.takeWhile_append_dropWhile (p := Char.isWhitespace) (l := s.data)
    rw [← hsplit] at hc
    rcases List.mem_append.mp hc with htk | hdr
    · exact List.mem_takeWhile_imp htk
    · exact hd c hdr
  · intro h
    have h1 : s.data.dropWhile Char.isWhitespace = [] := by
      rw [List.dropWhile_eq_nil_iff]
      exact h
    rw [h1]
    rfl

theorem mem_data_jsTrim (s : String) (c : Char) (hc : c ∈ (jsTrim s).data) :
    c ∈ s.data := by
  unfold jsTrim at hc
  simp only [String.data] at hc
  have h1 : c ∈ (s.data.dropWhile Char.isWhitespace).reverse.dropWhile Char.isWhitespace := by
    exact List.mem_reverse.mp hc
  have h2 : c ∈ (s.data.dropWhile Char.isWhitespace).reverse :=
    (List.dropWhile_sublist _).subset h1
  have h3 : c ∈ s.data.dropWhile Char.isWhitespace := List.mem_reverse.mp h2
  exact (List.dropWhile_sublist _).subset h3

theorem jsTrim_ne_empty_exists (s : String) (h : jsTrim s ≠ "") :
    ∃ c, c ∈ (jsTrim s).data ∧ c.isWhitespace = false := by
  cases hin : (s.data.dropWhile Char.isWhitespace).reverse.dropWhile Char.isWhitespace with
  | nil =>
    exfalso
    apply h
    unfold jsTrim
    rw [hin]
    rfl
  | cons a t =>
    refine ⟨a, ?_, dropWhile_head_false _ _ _ _ hin⟩
    unfold jsTrim
    change a ∈ ((s.data.dropWhile Char.isWhitespace).reverse.dropWhile
      Char.isWhitespace).reverse
    rw [hin]
    simp

theorem string_data_append (a b : String) : (a ++ b).data = a.data ++ b.data := by
  cases a; cases b; rfl

theorem mem_data_joinSep (sep : String) (parts : List String) (p : String)
    (hp : p ∈ parts) (c : Char) (hc : c ∈ p.data) : c ∈ (joinSep sep parts).data := by
  induction parts with
  | nil => cases hp
  | cons s rest ih =>
    cases rest with
    | nil =>
      rcases List.mem_cons.mp hp with h | h
      · subst h; exact hc
      · cases h
    | cons s2 rest2 =>
      show c ∈ (s ++ sep ++ joinSep sep (s2 :: rest2)).data
      rw [string_data_append, string_data_append]
      rcases List.mem_cons.mp hp with h | h
      · subst h
        exact List.mem_append.mpr (Or.inl (List.mem_append.mpr (Or.inl hc)))
      · exact List.mem_append.mpr (Or.inr (ih h))

theorem jsTrim_joinSep_ne_empty (sep : String) (parts : List String)
    (hne : parts ≠ []) (hall : ∀ p ∈ parts, jsTrim p ≠ "") :
    jsTrim (joinSep sep parts) ≠ "" := by
  intro hempty
  rw [jsTrim_eq_empty_iff] at hempty
  cases parts with
  | nil => exact hne rfl
  | cons p rest =>
    have hp := hall p (List.mem_cons_self p rest)
    obtain ⟨c, hc, hws⟩ := jsTrim_ne_empty_exists p hp
    have hcp : c ∈ p.data := mem_data_jsTrim p c hc
    have hcj : c ∈ (joinSep sep (p :: rest)).data :=
      mem_data_joinSep sep (p :: rest) p (List.mem_cons_self p rest) c hcp
    have := hempty c hcj
    rw [hws] at this
    cases this

theorem insertDescBy_perm {α : Type} (key : α → Nat) (x : α) (l : List α) :
    List.Perm (insertDescBy key x l) (x :: l) := by
  induction l with
  | nil => rfl
  | cons y ys ih =>
    unfold insertDescBy
    split
    · rfl
    · exact (List.Perm.cons y ih).trans (List.Perm.swap x y ys)

theorem mem_insertDescBy {α : Type} (key : α → Nat) (x : α) (l : List α) (z : α)
    (h : z ∈ insertDescBy key x l) : z = x ∨ z ∈ l := by
  have := (insertDescBy_perm key x l).mem_iff.mp h
  simpa using this

theorem insertDescBy_pairwise {α : Type} (key : α → Nat) (x : α) (l : List α)
    (h : l.Pairwise (fun a b => key b ≤ key a)) :
    (insertDescBy key x l).Pairwise (fun a b => key b ≤ key a) := by
  induction l with
  | nil => simp [insertDescBy]
  | cons y ys ih =>
    rw [List.pairwise_cons] at h
    obtain ⟨hy, hys⟩ := h
    unfold insertDescBy
    split
    case isTrue hlt =>
      rw [List.pairwise_cons]
      constructor
      · intro z hz
        rcases List.mem_cons.mp hz with hzy | hzys
        · subst hzy; omega
        · have := hy z hzys; omega
      · rw [List.pairwise_cons]
        exact ⟨hy, hys⟩
    case isFalse hge =>
      rw [List.pairwise_cons]
      constructor
      · intro z hz
        rcases mem_insertDescBy key x ys z hz with hzx | hzys
        · subst hzx; omega
        · exact hy z hzys
      · exact ih hys

theorem filter_eq_nil_of_lt {α : Type} (key : α → Nat) (s : Nat) (l : List α)
    (h : ∀ z ∈ l, key z < s) : l.filter (fun y => key y == s) = [] := by
  induction l with
  | nil => rfl
  | cons y ys ih =>
    rw [List.filter_cons]
    have hy := h y (List.mem_cons_self y ys)
    have : (key y == s) = false := by
      simp only [beq_eq_false_iff_ne]
      omega
    rw [this]
    simp only [Bool.false_eq_true, if_neg, not_false_iff]
    exact ih (fun z hz => h z (List.mem_cons_of_mem y hz))

theorem insertDescBy_filter {α : Type} (key : α → Nat) (x : α) (l : List α) (s : Nat)
    (h : l.Pairwise (fun a b => key b ≤ key a)) :
    (insertDescBy key x l).filter (fun y => key y == s)
      = l.filter (fun y => key y == s) ++ (if key x == s then [x] else []) := by
  induction l with
  | nil =>
    simp only [insertDescBy, List.filter_cons, List.filter_nil, List.nil_append]
  | cons y ys ih =>
    rw [List.pairwise_cons] at h
    obtain ⟨hy, hys⟩ := h
    unfold insertDescBy
    split
    case isTrue hlt =>
      rw [List.filter_cons]
      by_cases hxs : key x = s
      · have hb : (key x == s) = true := by simp [hxs]
        rw [hb]
        simp only [if_pos]
        have hnil : (y :: ys).filter (fun z => key z == s) = [] := by
          apply filter_eq_nil_of_lt
          intro z hz
          rcases List.mem_cons.mp hz with hzy | hzys
          · subst hzy; omega
          · have := hy z hzys; omega
        rw [hnil]
        rfl
      · have hb : (key x == s) = false := by simp [hxs]
        rw [hb]
        simp
    case isFalse hge =>
      rw [List.filter_cons, List.filter_cons]
      by_cases hys2 : key y = s
      · have hb : (key y == s) = true := by simp [hys2]
        rw [hb]
        simp only [if_pos]
        rw [List.cons_append]
        rw [ih hys]
      · have hb : (key y == s) = false := by simp [hys2]
        rw [hb]
        simp only [Bool.false_eq_true, if_neg, not_false_iff]
        exact ih hys

theorem foldl_insertDescBy_perm {α : Type} (key : α → Nat) (l : List α) :
    ∀ acc : List α, List.Perm (l.foldl (fun a x => insertDescBy key x a) acc) (acc ++ l) := by
  induction l with
  | nil => intro acc; simp
  | cons x xs ih =>
    intro acc
    rw [List.foldl_cons]
    have h1 := ih (insertDescBy key x acc)
    have h2 : List.Perm (insertDescBy key x acc ++ xs) ((x :: acc) ++ xs) :=
      (insertDescBy_perm key x acc).append_right xs
    have h3 : List.Perm ((x :: acc) ++ xs) (acc ++ x :: xs) := by
      rw [List.cons_append]
      exact (List.perm_middle).symm
    exact (h1.trans h2).trans h3

theorem foldl_insertDescBy_pairwise {α : Type} (key : α → Nat) (l : List α) :
    ∀ acc : List α, acc.Pairwise (fun a b => key b ≤ key a) →
    (l.foldl (fun a x => insertDescBy key x a) acc).Pairwise (fun a b => key b ≤ key a) := by
  induction l with
  | nil => intro acc hacc; exact hacc
  | cons x xs ih =>
    intro acc hacc
    rw [List.foldl_cons]
    exact ih _ (insertDescBy_pairwise key x acc hacc)

theorem foldl_insertDescBy_filter {α : Type} (key : α → Nat) (s : Nat) (l : List α) :
    ∀ acc : List α, acc.Pairwise (fun a b => key b ≤ key a) →
    (l.foldl (fun a x => insertDescBy key x a) acc).filter (fun y => key y == s)
      = acc.filter (fun y => key y == s) ++ l.filter (fun y => key y == s) := by
  induction l with
  | nil => intro acc hacc; simp
  | cons x xs ih =>
    intro acc hacc
    rw [List.foldl_cons]
    rw [ih _ (insertDescBy_pairwise key x acc hacc)]
    rw [insertDescBy_filter key x acc s hacc]
    rw [List.filter_cons]
    by_cases hxs : key x = s
    · have hb : (key x == s) = true := by simp [hxs]
      rw [hb]
      simp
    · have hb : (key x == s) = false := by simp [hxs]
      rw [hb]
      simp

theorem stableSortDescBy_perm {α : Type} (key : α → Nat) (l : List α) :
    List.Perm (stableSortDescBy key l) l := by
  have := foldl_insertDescBy_perm key l []
  simpa [stableSortDescBy] using this

theorem stableSortDescBy_pairwise {α : Type} (key : α → Nat) (l : List α) :
    (stableSortDescBy key l).Pairwise (fun a b => key b ≤ key a) :=
  foldl_insertDescBy_pairwise key l [] (List.Pairwise.nil)

theorem stableSortDescBy_filter {α : Type} (key : α → Nat) (s : Nat) (l : List α) :
    (stableSortDescBy key l).filter (fun y => key y == s)
      = l.filter (fun y => key y == s) :=
  foldl_insertDescBy_filter key s l [] (List.Pairwise.nil)

theorem alistLookup_map_incr_ne (m : List (String × Nat)) (k k2 : String) (h : k2 ≠ k) :
    alistLookup (m.map (fun p => if p.1 == k then (p.1, p.2 + 1) else p)) k2
      = alistLookup m k2 := by
  induction m with
  | nil => rfl
  | cons p m ih =>
    rw [List.map_cons, alistLookup_cons, alistLookup_cons]
    by_cases hpk : p.1 = k
    · have hb : (p.1 == k) = true := by simp [hpk]
      rw [hb]
      simp only [if_pos]
      have h2 : (p.1 == k2) = false := by simp [hpk, Ne.symm h]
      simp only [h2, Bool.false_eq_true, if_neg, not_false_iff]
      exact ih
    · have hb : (p.1 == k) = false := by simp [hpk]
      rw [hb]
      simp only [Bool.false_eq_true, if_neg, not_false_iff]
      by_cases hpk2 : p.1 = k2
      · simp [hpk2]
      · have h2 : (p.1 == k2) = false := by simp [hpk2]
        simp only [h2, Bool.false_eq_true, if_neg, not_false_iff]
        exact ih

theorem alistLookup_map_incr_eq (m : List (String × Nat)) (k : String) :
    alistLookup (m.map (fun p => if p.1 == k then (p.1, p.2 + 1) else p)) k
      = (alistLookup m k).map (fun c => c + 1) := by
  induction m with
  | nil => rfl
  | cons p m ih =>
    by_cases hpk : p.1 = k
    · have hhead : (if p.1 == k then (p.1, p.2 + 1) else p) = (p.1, p.2 + 1) := by
        simp [hpk]
      rw [List.map_cons, hhead, alistLookup_cons, alistLookup_cons]
      have hb : (p.1 == k) = true := by simp [hpk]
      rw [hb]
      simp
    · have hhead : (if p.1 == k then (p.1, p.2 + 1) else p) = p := by
        simp [hpk]
      rw [List.map_cons, hhead, alistLookup_cons, alistLookup_cons]
      have hb : (p.1 == k) = false := by simp [hpk]
      rw [hb]
      simp only [Bool.false_eq_true, if_neg, not_false_iff]
      exact ih

theorem alistLookup_isSome_iff_find? {β : Type} (m : List (String × β)) (k : String) :
    (alistLookup m k).isSome = (m.find? (fun p => p.1 == k)).isSome := by
  unfold alistLookup
  cases m.find? (fun p => p.1 == k) <;> rfl

theorem bump_lookup (m : List (String × Nat)) (k k2 : String) :
    alistLookup (bump m k) k2
      = if k2 = k then some (alistLookupCount m k + 1) else alistLookup m k2 := by
  unfold bump
  split
  case isTrue hsome =>
    by_cases hk2 : k2 = k
    · subst hk2
      rw [if_pos rfl, alistLookup_map_incr_eq]
      unfold alistLookupCount
      cases hl : alistLookup m k2 with
      | none =>
        exfalso
        have h2 : (alistLookup m k2).isSome = true := by
          rw [alistLookup_isSome_iff_find?]
          exact hsome
        rw [hl] at h2
        cases h2
      | some c => rfl
    · rw [if_neg hk2]
      exact alistLookup_map_incr_ne m k k2 hk2
  case isFalse hnone =>
    have hlk : alistLookup m k = none := by
      unfold alistLookup
      cases hf : m.find? (fun p => p.1 == k) with
      | none => rfl
      | some p => rw [hf] at hnone; simp at hnone
    rw [alistLookup_append_single]
    by_cases hk2 : k2 = k
    · subst hk2
      rw [hlk]
      simp [alistLookupCount, hlk]
    · have hb : (k == k2) = false := by simp [Ne.symm hk2]
      rw [hb, if_neg hk2]
      cases hl2 : alistLookup m k2 <;> simp

theorem mem_map_fst_iff_lookup_isSome {β : Type} (m : List (String × β)) (k : String) :
    k ∈ m.map Prod.fst ↔ (alistLookup m k).isSome := by
  induction m with
  | nil => simp [alistLookup]
  | cons p m ih =>
    rw [List.map_cons, List.mem_cons, alistLookup_cons]
    by_cases hpk : p.1 = k
    · have hb : (p.1 == k) = true := by simp [hpk]
      rw [hb]
      simp [hpk]
    · have hb : (p.1 == k) = false := by simp [hpk]
      rw [hb]
      simp only [Bool.false_eq_true, if_neg, not_false_iff]
      constructor
      · intro h
        rcases h with h | h
        · exact absurd h.symm hpk
        · exact ih.mp h
      · intro h
        exact Or.inr (ih.mpr h)

theorem map_fst_bump (m : List (String × Nat)) (k : String) :
    (bump m k).map Prod.fst
      = if (m.find? (fun p => p.1 == k)).isSome
        then m.map Prod.fst else m.map Prod.fst ++ [k] := by
  unfold bump
  split
  case isTrue hsome =>
    rw [List.map_map]
    apply List.map_congr_left
    intro p _
    by_cases hpk : p.1 = k <;> simp [hpk]
  case isFalse hnone =>
    simp

theorem nodup_map_fst_bump (m : List (String × Nat)) (k : String)
    (hnd : (m.map Prod.fst).Nodup) : ((bump m k).map Prod.fst).Nodup := by
  rw [map_fst_bump]
  split
  · exact hnd
  case isFalse hnone =>
    have hnotmem : k ∉ m.map Prod.fst := by
      rw [mem_map_fst_iff_lookup_isSome, alistLookup_isSome_iff_find?]
      simpa using hnone
    simp [List.nodup_append, hnd, hnotmem]

theorem lookupCount_foldl_bump (ws : List String) :
    ∀ (acc : List (String × Nat)) (k : String),
    alistLookupCount (ws.foldl bump acc) k = alistLookupCount acc k + ws.count k := by
  induction ws with
  | nil => intro acc k; simp
  | cons w ws ih =>
    intro acc k
    rw [List.foldl_cons, ih]
    have hc : (w :: ws).count k = ws.count k + (if w == k then 1 else 0) := by
      rw [List.count_cons]
    rw [hc]
    unfold alistLookupCount
    rw [bump_lookup]
    by_cases hkw : k = w
    · subst hkw
      simp [alistLookupCount]
      omega
    · have hb : (w == k) = false := by simp [Ne.symm hkw]
      rw [if_neg hkw, hb]
      simp

theorem mem_keys_foldl_bump (ws : List String) :
    ∀ (acc : List (String × Nat)) (k : String),
    k ∈ (ws.foldl bump acc).map Prod.fst ↔ (k ∈ acc.map Prod.fst ∨ k ∈ ws) := by
  induction ws with
  | nil => intro acc k; simp
  | cons w ws ih =>
    intro acc k
    rw [List.foldl_cons, ih]
    have hbump : k ∈ (bump acc w).map Prod.fst ↔ (k ∈ acc.map Prod.fst ∨ k = w) := by
      rw [map_fst_bump]
      split
      case isTrue hsome =>
        constructor
        · exact Or.inl
        · intro h
          rcases h with h | h
          · exact h
          · subst h
            rw [mem_map_fst_iff_lookup_isSome, alistLookup_isSome_iff_find?]
            exact hsome
      case isFalse hnone =>
        simp [List.mem_append]
    rw [hbump]
    rw [List.mem_cons]
    tauto

theorem nodup_keys_foldl_bump (ws : List String) (acc : List (String × Nat))
    (hnd : (acc.map Prod.fst).Nodup) : ((ws.foldl bump acc).map Prod.fst).Nodup := by
  apply foldl_preserves (fun m => (m.map Prod.fst).Nodup) bump ws acc hnd
  intro b a _ hb
  exact nodup_map_fst_bump b a hb

theorem length_foldl_bump_eq_dedup (ws : List String) :
    (ws.foldl bump []).length = ws.dedup.length := by
  have hkeys : (ws.foldl bump []).length = ((ws.foldl bump []).map Prod.fst).length := by
    rw [List.length_map]
  have hnd : ((ws.foldl bump []).map Prod.fst).Nodup :=
    nodup_keys_foldl_bump ws [] (by simp)
  have hmem : ∀ k, k ∈ (ws.foldl bump []).map Prod.fst ↔ k ∈ ws := by
    intro k
    rw [mem_keys_foldl_bump]
    simp
  have hfin : ((ws.foldl bump []).map Prod.fst).toFinset = ws.toFinset := by
    ext k
    simp only [List.mem_toFinset]
    exact hmem k
  have h1 : ((ws.foldl bump []).map Prod.fst).length
      = ((ws.foldl bump []).map Prod.fst).dedup.length := by
    rw [List.Nodup.dedup hnd]
  rw [hkeys, h1, ← List.card_toFinset, hfin, List.card_toFinset]

theorem alistLookup_eq_of_mem {β : Type} (m : List (String × β)) (k : String) (v : β)
    (hnd : (m.map Prod.fst).Nodup) (h : (k, v) ∈ m) : alistLookup m k = some v := by
  induction m with
  | nil => cases h
  | cons p m ih =>
    rw [List.map_cons, List.nodup_cons] at hnd
    obtain ⟨hp, hnd2⟩ := hnd
    rw [alistLookup_cons]
    rcases List.mem_cons.mp h with hh | ht
    · subst hh
      simp
    · by_cases hpk : p.1 = k
      · exfalso
        apply hp
        rw [hpk]
        exact List.mem_map.mpr ⟨(k, v), ht, rfl⟩
      · have hb : (p.1 == k) = false := by simp [hpk]
        rw [hb]
        simp only [Bool.false_eq_true, if_neg, not_false_iff]
        exact ih hnd2 ht

theorem mem_of_alistLookup_eq {β : Type} (m : List (String × β)) (k : String) (v : β)
    (h : alistLookup m k = some v) : (k, v) ∈ m := by
  unfold alistLookup at h
  cases hf : m.find? (fun p => p.1 == k) with
  | none => rw [hf] at h; cases h
  | some p =>
    rw [hf] at h
    have hmem := List.mem_of_find?_eq_some hf
    have hpred := List.find?_some hf
    have hk : p.1 = k := by simpa using hpred
    have hv : p.2 = v := by cases h; rfl
    have : p = (k, v) := by
      cases p
      simp_all
    rw [← this]
    exact hmem

theorem mem_foldl_bump_iff (ws : List String) (w : String) (c : Nat) :
    ((w, c) ∈ ws.foldl bump []) ↔ (w ∈ ws ∧ c = ws.count w) := by
  have hnd : ((ws.foldl bump []).map Prod.fst).Nodup :=
    nodup_keys_foldl_bump ws [] (by simp)
  have hcount : alistLookupCount (ws.foldl bump []) w = ws.count w := by
    rw [lookupCount_foldl_bump]
    simp [alistLookupCount, alistLookup]
  constructor
  · intro h
    have hl := alistLookup_eq_of_mem _ _ _ hnd h
    have hw : w ∈ ws := by
      have : w ∈ (ws.foldl bump []).map Prod.fst :=
        List.mem_map.mpr ⟨(w, c), h, rfl⟩
      rw [mem_keys_foldl_bump] at this
      simpa using this
    refine ⟨hw, ?_⟩
    unfold alistLookupCount at hcount
    rw [hl] at hcount
    simpa using hcount
  · intro h
    obtain ⟨hw, hc⟩ := h
    have hmemk : w ∈ (ws.foldl bump []).map Prod.fst := by
      rw [mem_keys_foldl_bump]
      simp [hw]
    rw [mem_map_fst_iff_lookup_isSome] at hmemk
    cases hl : alistLookup (ws.foldl bump []) w with
    | none => rw [hl] at hmemk; cases hmemk
    | some c2 =>
      have : c2 = ws.count w := by
        unfold alistLookupCount at hcount
        rw [hl] at hcount
        simpa using hcount
      rw [hc, ← this]
      exact mem_of_alistLookup_eq _ _ _ hl

theorem foldl_foldl_bump_flatMap {α : Type} (meetings : List α) (f : α → List String) :
    ∀ acc, meetings.foldl (fun a x => (f x).foldl bump a) acc
      = (meetings.flatMap f).foldl bump acc := by
  induction meetings with
  | nil => intro acc; rfl
  | cons m ms ih =>
    intro acc
    rw [List.foldl_cons, List.flatMap_cons, List.foldl_append]
    exact ih _

/-- C3: `AnalyzePatterns("frequency")` buckets the filtered meetings by UTC
year-month: every bucket count equals the number of filtered meetings whose
date falls in that month, and `averagePerMonth` is the total filtered
meeting count divided by the number of distinct months containing at least
one meeting (and 0 when there are no meetings). -/
theorem analyzeFrequencyPatterns_spec (meetings : List MeetingMetadata) :
    (analyzeFrequencyPatterns meetings).meetingCount = meetings.length
    ∧ (∀ k, alistLookupCount (analyzeFrequencyPatterns meetings).byMonth k
        = (meetings.map (fun m => monthKey m.date)).count k)
    ∧ (analyzeFrequencyPatterns meetings).averagePerMonth
        = (if meetings = [] then 0
           else (meetings.length : Rat)
             / ((meetings.map (fun m => monthKey m.date)).dedup.length : Rat)) := by
  have hfold : meetings.foldl (fun acc m => bump acc (monthKey m.date)) []
      = (meetings.map (fun m => monthKey m.date)).foldl bump [] := by
    rw [List.foldl_map]
  refine ⟨rfl, ?_, ?_⟩
  · intro k
    show alistLookupCount (meetings.foldl (fun acc m => bump acc (monthKey m.date)) []) k
      = (meetings.map (fun m => monthKey m.date)).count k
    rw [hfold, lookupCount_foldl_bump]
    simp [alistLookupCount, alistLookup]
  · show (if (meetings.foldl (fun acc m => bump acc (monthKey m.date)) []).length > 0
        then (meetings.length : Rat)
          / ((meetings.foldl (fun acc m => bump acc (monthKey m.date)) []).length : Rat)
        else 0) = _
    rw [hfold, length_foldl_bump_eq_dedup]
    by_cases hm : meetings = []
    · subst hm
      simp
    · rw [if_neg hm]
      have hne : meetings.map (fun m => monthKey m.date) ≠ [] := by
        simp [hm]
      have hd : (meetings.map (fun m => monthKey m.date)).dedup ≠ [] := by
        rw [Ne, List.dedup_eq_nil]
        exact hne
      have hlen : (meetings.map (fun m => monthKey m.date)).dedup.length > 0 :=
        List.length_pos.mpr hd
      rw [if_pos hlen]

/-- C4: `AnalyzePatterns("topics")` lowercases each filtered title, splits
on whitespace, strips characters outside `[a-z0-9_-]`, discards tokens of
length at most 3 and stop words, and returns per-token counts sorted
descending: the result is a permutation of the token-count table, each
listed pair carries exactly the token's occurrence count across all
filtered titles, and the counts are in descending order. -/
theorem analyzeTopicPatterns_spec (meetings : List MeetingMetadata) :
    (analyzeTopicPatterns meetings).meetingCount = meetings.length
    ∧ ((analyzeTopicPatterns meetings).topics).Pairwise (fun a b => b.2 ≤ a.2)
    ∧ List.Perm (analyzeTopicPatterns meetings).topics
        ((meetings.flatMap (fun m => topicWords m.title)).foldl bump [])
    ∧ (∀ w c, ((w, c) ∈ (analyzeTopicPatterns meetings).topics)
        ↔ (w ∈ meetings.flatMap (fun m => topicWords m.title)
           ∧ c = (meetings.flatMap (fun m => topicWords m.title)).count w)) := by
  have hfold : meetings.foldl (fun acc m => (topicWords m.title).foldl
        (fun a w => bump a w) acc) []
      = (meetings.flatMap (fun m => topicWords m.title)).foldl bump [] :=
    foldl_foldl_bump_flatMap meetings (fun m => topicWords m.title) []
  have htopics : (analyzeTopicPatterns meetings).topics
      = stableSortDescBy Prod.snd
        ((meetings.flatMap (fun m => topicWords m.title)).foldl bump []) := by
    show stableSortDescBy Prod.snd (meetings.foldl (fun acc m =>
      (topicWords m.title).foldl (fun a w => bump a w) acc) []) = _
    rw [hfold]
  refine ⟨rfl, ?_, ?_, ?_⟩
  · rw [htopics]
    exact stableSortDescBy_pairwise Prod.snd _
  · rw [htopics]
    exact stableSortDescBy_perm Prod.snd _
  · intro w c
    rw [htopics]
    rw [(stableSortDescBy_perm Prod.snd _).mem_iff]
    exact mem_foldl_bump_iff _ w c

/-- C9: building the model from the same raw input and the same load time
is deterministic — the meetings, documents and transcripts maps of two
builds coincide. -/
theorem parseCacheData_deterministic (rawData : Json) (parsePanels : Bool)
    (now : JsDate) (pd : String → Option JsDate) (c1 c2 : CacheData)
    (h1 : c1 = parseCacheData rawData parsePanels now pd)
    (h2 : c2 = parseCacheData rawData parsePanels now pd) :
    c1.meetings = c2.meetings ∧ c1.documents = c2.documents
      ∧ c1.transcripts = c2.transcripts := by
  subst h1
  subst h2
  exact ⟨rfl, rfl, rfl⟩

/-- Witness for C9 at a concrete raw record map. -/
theorem parseCacheData_deterministic_witness :
    (parseCacheData (Json.obj [("documents", Json.obj [("m1",
        Json.obj [("title", Json.str "Planning")])])]) true
        { epochMs := 0, utcYear := 1970, utcMonth := 0 } (fun _ => none)).meetings
      = (parseCacheData (Json.obj [("documents", Json.obj [("m1",
        Json.obj [("title", Json.str "Planning")])])]) true
        { epochMs := 0, utcYear := 1970, utcMonth := 0 } (fun _ => none)).meetings := by
  exact (parseCacheData_deterministic _ true
    { epochMs := 0, utcYear := 1970, utcMonth := 0 } (fun _ => none) _ _ rfl rfl).1

theorem buildDocuments_lookup_props (rawDocuments : List (String × Json))
    (documentPanels : Json) (ms : List (String × MeetingMetadata)) (parsePanels : Bool)
    (id : String) (doc : MeetingDocument)
    (h : alistLookup (buildDocuments rawDocuments documentPanels ms parsePanels) id
      = some doc) :
    ∃ docData meeting, (id, docData) ∈ rawDocuments ∧ jsObjLike docData = true
      ∧ alistLookup ms id = some meeting
      ∧ doc = builtDocRecord id docData documentPanels parsePanels meeting := by
  unfold buildDocuments at h
  refine foldl_preserves
    (fun acc => ∀ d : MeetingDocument, alistLookup acc id = some d →
      ∃ docData meeting, (id, docData) ∈ rawDocuments ∧ jsObjLike docData = true
        ∧ alistLookup ms id = some meeting
        ∧ d = builtDocRecord id docData documentPanels parsePanels meeting)
    _ rawDocuments [] ?_ ?_ doc h
  · intro d hd
    simp [alistLookup] at hd
  · intro acc p hpmem hacc d hd
    by_cases hobj : jsObjLike p.2
    · rw [if_pos hobj] at hd
      cases hms : alistLookup ms p.1 with
      | none => rw [hms] at hd; exact hacc d hd
      | some meeting =>
        rw [hms] at hd
        rw [alistLookup_insert] at hd
        by_cases hid : id = p.1
        · subst hid
          rw [if_pos rfl] at hd
          cases hd
          exact ⟨p.2, meeting, by cases p; exact hpmem, hobj, hms, rfl⟩
        · rw [if_neg hid] at hd
          exact hacc d hd
    · rw [if_neg hobj] at hd
      exact hacc d hd

/-- C5: a Document exists in the built Cache only for an id that also has a
Meeting — raw records for which no Meeting was built produce no Document. -/
theorem document_requires_meeting (rawData : Json) (parsePanels : Bool) (now : JsDate)
    (pd : String → Option JsDate) (id : String)
    (h : (alistLookup (parseCacheData rawData parsePanels now pd).documents id).isSome) :
    (alistLookup (parseCacheData rawData parsePanels now pd).meetings id).isSome := by
  cases hd : alistLookup (parseCacheData rawData parsePanels now pd).documents id with
  | none => rw [hd] at h; cases h
  | some doc =>
    have hprops := buildDocuments_lookup_props (rawDocEntries rawData)
      ((jsGet rawData "documentPanels").getD Json.null)
      (buildMeetings (rawDocEntries rawData) now pd) parsePanels id doc hd
    obtain ⟨docData, meeting, _, _, hms, _⟩ := hprops
    show (alistLookup (buildMeetings (rawDocEntries rawData) now pd) id).isSome
    rw [hms]
    rfl

/-- Witness for C5: a concrete raw record that yields a document. -/
theorem document_requires_meeting_witness :
    ((alistLookup (parseCacheData (Json.obj [("documents", Json.obj [("m1",
        Json.obj [("title", Json.str "Q1 Planning"),
          ("notes_plain", Json.str "Discussed roadmap.")])])]) false
        { epochMs := 0, utcYear := 1970, utcMonth := 0 }
        (fun _ => none)).documents "m1").isSome = true)
    ∧ ((alistLookup (parseCacheData (Json.obj [("documents", Json.obj [("m1",
        Json.obj [("title", Json.str "Q1 Planning"),
          ("notes_plain", Json.str "Discussed roadmap.")])])]) false
        { epochMs := 0, utcYear := 1970, utcMonth := 0 }
        (fun _ => none)).meetings "m1").isSome = true) := by
  refine ⟨by decide, ?_⟩
  exact document_requires_meeting _ false _ (fun _ => none) "m1" (by decide)

theorem jsTrim_jsTrim_ne_empty (t : String) (h : jsTrim t ≠ "") :
    jsTrim (jsTrim t) ≠ "" := by
  obtain ⟨c, hc, hws⟩ := jsTrim_ne_empty_exists t h
  intro hempty
  rw [jsTrim_eq_empty_iff] at hempty
  have := hempty c hc
  rw [hws] at this
  cases this

theorem firstNonblankStr_nonblank (vals : List (Option Json)) (v : String)
    (h : firstNonblankStr vals = some v) : jsTrim v ≠ "" := by
  induction vals with
  | nil => cases h
  | cons hd rest ih =>
    match hd with
    | none => exact ih h
    | some Json.null => exact ih h
    | some (Json.bool b) => exact ih h
    | some (Json.num n) => exact ih h
    | some (Json.arr a) => exact ih h
    | some (Json.obj o) => exact ih h
    | some (Json.str s) =>
      unfold firstNonblankStr at h
      by_cases hs : jsTrim s == ""
      · rw [if_pos hs] at h
        exact ih h
      · rw [if_neg hs] at h
        cases h
        simpa using hs

theorem transcriptParts_all_nonblank (e : Json) (p : String)
    (hp : p ∈ (transcriptParts e).1) : jsTrim p ≠ "" := by
  match e with
  | Json.null => cases hp
  | Json.bool b => cases hp
  | Json.num n => cases hp
  | Json.str s => cases hp
  | Json.obj fields =>
    unfold transcriptParts at hp
    simp only at hp
    cases hf : firstNonblankStr
        [alistLookup fields "content", alistLookup fields "text",
         alistLookup fields "transcript"] with
    | none => rw [hf] at hp; cases hp
    | some v =>
      rw [hf] at hp
      have : p = v := by
        rcases List.mem_singleton.mp hp with h
        exact h
      subst this
      exact firstNonblankStr_nonblank _ _ hf
  | Json.arr segments =>
    unfold transcriptParts at hp
    simp only at hp
    revert hp
    show p ∈ (segments.foldl _ (([], []) : List String × List String)).1 → _
    intro hp
    refine foldl_preserves
      (fun acc : List String × List String => ∀ q ∈ acc.1, jsTrim q ≠ "")
      _ segments ([], []) ?_ ?_ p hp
    · intro q hq; cases hq
    · intro acc segment _ hacc q hq
      by_cases hobj : jsObjLike segment
      · rw [if_pos hobj] at hq
        simp only at hq
        cases htext : jsGet segment "text" with
        | none =>
          rw [htext] at hq
          exact hacc q hq
        | some tv =>
          rw [htext] at hq
          match tv with
          | Json.null => exact hacc q hq
          | Json.bool b => exact hacc q hq
          | Json.num n => exact hacc q hq
          | Json.arr a => exact hacc q hq
          | Json.obj o => exact hacc q hq
          | Json.str t =>
            replace hq : q ∈ (if (jsTrim t == "") = true then acc.1
              else acc.1 ++ [jsTrim t]) := hq
            by_cases ht : (jsTrim t == "") = true
            · rw [if_pos ht] at hq
              exact hacc q hq
            · rw [if_neg ht] at hq
              rcases List.mem_append.mp hq with hq1 | hq2
              · exact hacc q hq1
              · have : q = jsTrim t := List.mem_singleton.mp hq2
                subst this
                exact jsTrim_jsTrim_ne_empty t (by simpa using ht)
      · rw [if_neg hobj] at hq
        exact hacc q hq

theorem buildTranscripts_content_props (rawTs : List (String × Json)) (id : String)
    (t : MeetingTranscript) (h : alistLookup (buildTranscripts rawTs) id = some t) :
    t.content ≠ "" := by
  revert h
  unfold buildTranscripts
  intro h
  refine foldl_preserves
    (fun acc => ∀ t2 : MeetingTranscript, alistLookup acc id = some t2 → t2.content ≠ "")
    _ rawTs [] ?_ ?_ t h
  · intro t2 ht2
    simp [alistLookup] at ht2
  · intro acc p _ hacc t2 ht2
    by_cases hlen : (transcriptParts p.2).1.length > 0
    · rw [if_pos hlen] at ht2
      rw [alistLookup_insert] at ht2
      by_cases hid : id = p.1
      · rw [if_pos hid] at ht2
        cases ht2
        show jsTrim (joinSep " " (transcriptParts p.2).1) ≠ ""
        apply jsTrim_joinSep_ne_empty
        · intro hnil
          rw [hnil] at hlen
          cases hlen
        · intro q hq
          exact transcriptParts_all_nonblank p.2 q hq
      · rw [if_neg hid] at ht2
        exact hacc t2 ht2
    · rw [if_neg hlen] at ht2
      exact hacc t2 ht2

theorem buildTranscripts_none_of_empty (rawTs : List (String × Json)) (id : String)
    (hall : ∀ e, (id, e) ∈ rawTs → (transcriptParts e).1 = []) :
    alistLookup (buildTranscripts rawTs) id = none := by
  unfold buildTranscripts
  refine foldl_preserves (fun acc => alistLookup acc id = none) _ rawTs [] ?_ ?_
  · simp [alistLookup]
  · intro acc p hpmem hacc
    by_cases hlen : (transcriptParts p.2).1.length > 0
    · rw [if_pos hlen]
      rw [alistLookup_insert]
      by_cases hid : id = p.1
      · exfalso
        have hpe : (id, p.2) ∈ rawTs := by
          rw [hid]
          cases p
          exact hpmem
        have := hall p.2 hpe
        rw [this] at hlen
        cases hlen
      · rw [if_neg hid]
        exact hacc
    · rw [if_neg hlen]
      exact hacc

/-- C6: every Transcript stored in the built Cache has non-empty content,
and a raw transcript entry whose flattened content is empty produces no
Transcript at all. -/
theorem transcript_nonempty_invariant (rawData : Json) (parsePanels : Bool)
    (now : JsDate) (pd : String → Option JsDate) :
    (∀ id t, alistLookup (parseCacheData rawData parsePanels now pd).transcripts id
        = some t → t.content ≠ "")
    ∧ (∀ id, (∀ e, (id, e) ∈ rawTranscriptEntries rawData →
        (transcriptParts e).1 = []) →
      alistLookup (parseCacheData rawData parsePanels now pd).transcripts id = none) := by
  constructor
  · intro id t h
    exact buildTranscripts_content_props (rawTranscriptEntries rawData) id t h
  · intro id hall
    exact buildTranscripts_none_of_empty (rawTranscriptEntries rawData) id hall

/-- Witness for C6: a stored transcript with non-empty content, and an
empty-flattening entry that is omitted. -/
theorem transcript_nonempty_invariant_witness :
    ({ meetingId := "m1", content := "hello", speakers := [], language := none,
        confidence := none } : MeetingTranscript).content ≠ ""
    ∧ alistLookup (parseCacheData (Json.obj [("transcripts", Json.obj
        [("m1", Json.arr [Json.obj [("text", Json.str "hello")]]),
         ("m2", Json.arr [])])]) false
        { epochMs := 0, utcYear := 1970, utcMonth := 0 }
        (fun _ => none)).transcripts "m2" = none := by
  constructor
  · exact (transcript_nonempty_invariant (Json.obj [("transcripts", Json.obj
        [("m1", Json.arr [Json.obj [("text", Json.str "hello")]]),
         ("m2", Json.arr [])])]) false
        { epochMs := 0, utcYear := 1970, utcMonth := 0 }
        (fun _ => none)).1 "m1" _ (by decide)
  · apply (transcript_nonempty_invariant (Json.obj [("transcripts", Json.obj
        [("m1", Json.arr [Json.obj [("text", Json.str "hello")]]),
         ("m2", Json.arr [])])]) false
        { epochMs := 0, utcYear := 1970, utcMonth := 0 }
        (fun _ => none)).2 "m2"
    intro e he
    replace he : ("m2", e) ∈ [("m1", Json.arr [Json.obj [("text", Json.str "hello")]]),
        ("m2", Json.arr [])] := he
    rcases List.mem_cons.mp he with h1 | h2
    · have hS : "m2" = "m1" := congrArg Prod.fst h1
      exact absurd hS (by decide)
    · have h3 := List.mem_singleton.mp h2
      have h4 : e = Json.arr [] := congrArg Prod.snd h3
      subst h4
      rfl

/-- C10: both rich-text flatteners are total Lean functions (their
recursion is well-founded over the node size); in structured-notes mode any
input whose top level is not an object carrying a `content` array flattens
to the empty string, and in panel mode any non-object non-array input
flattens to the empty string. -/
theorem flatteners_total (j : Json) :
    (contentArrJ j = none → extractStructuredNotes j = "")
    ∧ (jsObjLike j = false → extractDocumentPanelContent j = "") := by
  constructor
  · intro h
    match j with
    | Json.null => rfl
    | Json.bool b => rfl
    | Json.num n => rfl
    | Json.str s => rfl
    | Json.arr items => rfl
    | Json.obj fields =>
      have hca : contentArr fields = none := h
      unfold extractStructuredNotes
      simp only [jsObjLike, Bool.not_true, Bool.false_eq_true, if_neg, not_false_iff]
      rw [hca]
  · intro h
    match j with
    | Json.null => rfl
    | Json.bool b =>
      unfold extractDocumentPanelContent
      match b with
      | true => rfl
      | false => rfl
    | Json.num n =>
      unfold extractDocumentPanelContent
      by_cases hn : jsFalsy (Json.num n) = true
      · rw [if_pos hn]
      · rw [if_neg hn]
        rfl
    | Json.str s =>
      unfold extractDocumentPanelContent
      by_cases hs : jsFalsy (Json.str s) = true
      · rw [if_pos hs]
      · rw [if_neg hs]
        rfl
    | Json.arr items => cases h
    | Json.obj fields => cases h

/-- Witness for C10 at a concrete primitive input. -/
theorem flatteners_total_witness :
    extractStructuredNotes (Json.str "x") = ""
    ∧ extractDocumentPanelContent (Json.str "x") = "" :=
  ⟨(flatteners_total (Json.str "x")).1 rfl, (flatteners_total (Json.str "x")).2 rfl⟩

theorem extractStructuredNotes_obj (fields : List (String × Json)) :
    extractStructuredNotes (Json.obj fields)
      = (match contentArr fields with
         | some items => jsTrim (joinSep " " (extractSNList items))
         | none => "") := rfl

theorem extractStructuredNotes_trim_ne (nj : Json)
    (h : extractStructuredNotes nj ≠ "") :
    jsTrim (extractStructuredNotes nj) ≠ "" := by
  match nj with
  | Json.null => exact absurd rfl h
  | Json.bool b => exact absurd rfl h
  | Json.num n => exact absurd rfl h
  | Json.str s => exact absurd rfl h
  | Json.arr a => exact absurd rfl h
  | Json.obj fields =>
    rw [extractStructuredNotes_obj] at h ⊢
    cases hca : contentArr fields with
    | none =>
      rw [hca] at h
      exact absurd rfl h
    | some items =>
      rw [hca] at h
      exact jsTrim_jsTrim_ne_empty _ h

/-- C2: document content is selected in strict priority order, first
non-blank wins — `notes_plain`, else `notes_markdown`, else non-empty
structured-notes extraction; when panel extraction is disabled and no notes
part was produced, the content consists of the Overview/Summary lines
alone; with both `notes_plain` and `notes_markdown` non-blank the selected
content part is the plain-text value and never the markdown value. -/
theorem documentContentPriority (docData documentPanels : Json) (docId : String)
    (parsePanels : Bool) :
    (∀ p, nonblankStrField docData "notes_plain" = some p →
      buildDocParts docData documentPanels docId parsePanels = p :: ovsParts docData)
    ∧ (∀ m, nonblankStrField docData "notes_plain" = none →
        nonblankStrField docData "notes_markdown" = some m →
        buildDocParts docData documentPanels docId parsePanels = m :: ovsParts docData)
    ∧ (∀ notesJson, nonblankStrField docData "notes_plain" = none →
        nonblankStrField docData "notes_markdown" = none →
        jsGet docData "notes" = some notesJson → jsObjLike notesJson = true →
        extractStructuredNotes notesJson ≠ "" →
        buildDocParts docData documentPanels docId parsePanels
          = extractStructuredNotes notesJson :: ovsParts docData)
    ∧ (parsePanels = false → notesParts docData = [] →
        buildDocParts docData documentPanels docId parsePanels = ovsParts docData
        ∧ buildDocContent docData documentPanels docId parsePanels
            = jsTrim (joinSep dblNewline (ovsParts docData)))
    ∧ (∀ p m, nonblankStrField docData "notes_plain" = some p →
        nonblankStrField docData "notes_markdown" = some m → p ≠ m →
        (buildDocParts docData documentPanels docId parsePanels).head? = some p
        ∧ (buildDocParts docData documentPanels docId parsePanels).head? ≠ some m) := by
  have hplain : ∀ p, nonblankStrField docData "notes_plain" = some p → jsTrim p ≠ "" := by
    intro p hp
    unfold nonblankStrField at hp
    cases hg : jsGet docData "notes_plain" with
    | none => rw [hg] at hp; cases hp
    | some v =>
      rw [hg] at hp
      match v with
      | Json.null => cases hp
      | Json.bool b => cases hp
      | Json.num n => cases hp
      | Json.arr a => cases hp
      | Json.obj o => cases hp
      | Json.str s =>
        replace hp : (if (jsTrim s == "") = true then none else some s) = some p := hp
        by_cases hs : (jsTrim s == "") = true
        · rw [if_pos hs] at hp; cases hp
        · rw [if_neg hs] at hp
          cases hp
          simpa using hs
  have hmd : ∀ m, nonblankStrField docData "notes_markdown" = some m → jsTrim m ≠ "" := by
    intro m hm
    unfold nonblankStrField at hm
    cases hg : jsGet docData "notes_markdown" with
    | none => rw [hg] at hm; cases hm
    | some v =>
      rw [hg] at hm
      match v with
      | Json.null => cases hm
      | Json.bool b => cases hm
      | Json.num n => cases hm
      | Json.arr a => cases hm
      | Json.obj o => cases hm
      | Json.str s =>
        replace hm : (if (jsTrim s == "") = true then none else some s) = some m := hm
        by_cases hs : (jsTrim s == "") = true
        · rw [if_pos hs] at hm; cases hm
        · rw [if_neg hs] at hm
          cases hm
          simpa using hs
  have hone : ∀ x, jsTrim x ≠ "" → notesParts docData = [x] →
      buildDocParts docData documentPanels docId parsePanels = x :: ovsParts docData := by
    intro x hx hnp
    have hd : (jsTrim x).data ≠ [] := by
      intro hdn
      exact hx (String.ext hdn)
    have hlen : 0 < (jsTrim x).length := List.length_pos.mpr hd
    unfold buildDocParts
    rw [hnp]
    simp [hlen]
  refine ⟨?_, ?_, ?_, ?_, ?_⟩
  · intro p hp
    apply hone p (hplain p hp)
    unfold notesParts
    rw [hp]
  · intro m hp hm
    apply hone m (hmd m hm)
    unfold notesParts
    rw [hp, hm]
  · intro notesJson hp hm hn hobj hs
    apply hone _ (extractStructuredNotes_trim_ne notesJson hs)
    have hb : (extractStructuredNotes notesJson == "") = false := by
      simpa using hs
    unfold notesParts
    rw [hp, hm, hn]
    simp [hobj, hb]
  · intro hpp hnp
    constructor
    · unfold buildDocParts
      rw [hnp, hpp]
      simp
    · unfold buildDocContent buildDocParts
      rw [hnp, hpp]
      simp
  · intro p m hp hm hpm
    have h1 : buildDocParts docData documentPanels docId parsePanels
        = p :: ovsParts docData := by
      apply hone p (hplain p hp)
      unfold notesParts
      rw [hp]
    rw [h1]
    refine ⟨rfl, ?_⟩
    intro hcontra
    have : p = m := by
      have := Option.some.inj hcontra
      simpa using this
    exact hpm this

/-- Witness for C2: with both a plain and a markdown notes field set to
different non-blank values, the selected content part is the plain value. -/
theorem documentContentPriority_witness :
    buildDocParts (Json.obj [("notes_plain", Json.str "plain notes"),
        ("notes_markdown", Json.str "markdown notes")]) Json.null "m1" false
      = ["plain notes"] := by
  have h := (documentContentPriority (Json.obj [("notes_plain", Json.str "plain notes"),
      ("notes_markdown", Json.str "markdown notes")]) Json.null "m1" false).1
    "plain notes" (by decide)
  rw [h]
  decide

theorem participant_foldl_count (ql : String) (l : List String) :
    ∀ s0 : Nat, l.foldl (fun acc participant =>
        if strIncludes (jsToLower participant) ql then acc + 1 else acc) s0
      = s0 + l.countP (fun participant => strIncludes (jsToLower participant) ql) := by
  induction l with
  | nil => intro s0; simp
  | cons p ps ih =>
    intro s0
    rw [List.foldl_cons, List.countP_cons]
    by_cases hp : strIncludes (jsToLower p) ql
    · rw [if_pos hp, ih]
      simp [hp]
      omega
    · rw [if_neg hp, ih]
      simp [hp]

theorem scoreOf_eq_specScore (data : CacheData) (query : String) (meetingId : String)
    (m : MeetingMetadata) :
    scoreOf data (jsToLower query) meetingId m = specScore data query meetingId m := by
  simp only [scoreOf, specScore]
  rw [participant_foldl_count]
  cases ht : alistLookup data.transcripts meetingId with
  | none =>
    by_cases htitle : strIncludes (jsToLower m.title) (jsToLower query) <;>
      simp [htitle] <;> omega
  | some t =>
    by_cases htitle : strIncludes (jsToLower m.title) (jsToLower query) <;>
      by_cases htr : strIncludes (jsToLower t.content) (jsToLower query) <;>
        simp [htitle, htr] <;> omega

theorem scored_foldl_filterMap (data : CacheData) (query : String)
    (l : List (String × MeetingMetadata)) :
    ∀ acc : List ScoredMeeting,
    l.foldl (fun acc p =>
        let sc := scoreOf data (jsToLower query) p.1 p.2
        if sc > 0 then acc ++ [{ score := sc, meeting := p.2 }] else acc) acc
      = acc ++ l.filterMap (fun p =>
          let sc := specScore data query p.1 p.2
          if sc > 0 then some { score := sc, meeting := p.2 } else none) := by
  induction l with
  | nil => intro acc; simp
  | cons p ps ih =>
    intro acc
    rw [List.foldl_cons, List.filterMap_cons]
    simp only
    rw [scoreOf_eq_specScore]
    by_cases hsc : specScore data query p.1 p.2 > 0
    · rw [if_pos hsc, if_pos hsc, ih]
      simp
    · rw [if_neg hsc, if_neg hsc, ih]

/-- C1: `Search` scores every meeting as `2*(title match) + (matching
participants) + (transcript match under the meeting's id)`, keeps only the
positive scorers in map insertion order, sorts them by score descending
with ties in insertion order (witnessed by the per-score filter equation),
truncates to `limit`, and never consults Document content. -/
theorem searchMeetings_spec (data : CacheData) (query : String) (limit : Int)
    (h : 0 < limit) :
    (searchMeetings data query limit
      = (stableSortDescBy ScoredMeeting.score (specScoredList data query)).take
          limit.toNat)
    ∧ (searchMeetings data query limit).Pairwise (fun a b => b.score ≤ a.score)
    ∧ (searchMeetings data query limit).length ≤ limit.toNat
    ∧ (∀ s, (stableSortDescBy ScoredMeeting.score (specScoredList data query)).filter
        (fun x => x.score == s)
        = (specScoredList data query).filter (fun x => x.score == s))
    ∧ (∀ docs, searchMeetings { data with documents := docs } query limit
        = searchMeetings data query limit) := by
  have hmain : searchMeetings data query limit
      = (stableSortDescBy ScoredMeeting.score (specScoredList data query)).take
          limit.toNat := by
    simp only [searchMeetings]
    rw [scored_foldl_filterMap data query data.meetings []]
    have hmax : ((0 : Int) ⊔ limit).toNat = limit.toNat := by
      rw [sup_eq_right.mpr h.le]
    rw [hmax]
    rfl
  refine ⟨hmain, ?_, ?_, ?_, ?_⟩
  · rw [hmain]
    exact (stableSortDescBy_pairwise ScoredMeeting.score _).sublist
      (List.take_sublist _ _)
  · rw [hmain]
    rw [List.length_take]
    exact min_le_left _ _
  · intro s
    exact stableSortDescBy_filter ScoredMeeting.score s _
  · intro docs
    rfl

/-- Witness for C1 at a concrete cache and limit. -/
theorem searchMeetings_spec_witness :
    searchMeetings (parseCacheData (Json.obj [("documents", Json.obj [("m1",
        Json.obj [("title", Json.str "Q1 Planning")])])]) false
        { epochMs := 0, utcYear := 2024, utcMonth := 0 } (fun _ => none)) "q1" 10
      = (stableSortDescBy ScoredMeeting.score (specScoredList (parseCacheData (Json.obj
          [("documents", Json.obj [("m1", Json.obj [("title",
            Json.str "Q1 Planning")])])]) false
          { epochMs := 0, utcYear := 2024, utcMonth := 0 } (fun _ => none)) "q1")).take
          (10 : Int).toNat :=
  (searchMeetings_spec _ "q1" 10 (by decide)).1

/-- C7: a missing cache file loads as the empty model rather than an
error, and on that model all five query operations succeed, reporting
empty or not-found results: search returns no results, details and
transcript lookups return the not-found indicator, the document list is
empty, and every valid pattern analysis returns the empty analysis. -/
theorem missingCacheDegrades (parsePanels : Bool) (now : JsDate)
    (pd : String → Option JsDate) (parseJson : String → Option Json)
    (query : String) (hq : query ≠ "") (lim : Rat) (hl : 0 < lim)
    (meetingId : String) (hid : meetingId ≠ "") (patternType : String)
    (hpt : patternType = "participants" ∨ patternType = "frequency"
      ∨ patternType = "topics") :
    loadCache none parsePanels now pd parseJson = Except.ok (emptyCacheData now)
    ∧ runSearch (emptyCacheData now) query (some (some lim)) = Except.ok []
    ∧ runGetMeetingDetails (emptyCacheData now) meetingId = Except.ok none
    ∧ runGetMeetingTranscript (emptyCacheData now) meetingId = Except.ok none
    ∧ runGetMeetingDocuments (emptyCacheData now) meetingId = Except.ok []
    ∧ analyzeMeetingPatterns (emptyCacheData now) patternType none none pd
        = Except.ok (emptyPatternResult patternType) := by
  have hqb : (query == "") = false := by simpa using hq
  have hidb : (meetingId == "") = false := by simpa using hid
  refine ⟨rfl, ?_, ?_, ?_, ?_, ?_⟩
  · unfold runSearch
    rw [hqb]
    simp only [Bool.false_eq_true, if_neg, not_false_iff]
    rw [if_neg (not_le.mpr hl)]
    have hempty : searchMeetings (emptyCacheData now) query lim.floor = [] := by
      simp [searchMeetings, emptyCacheData, stableSortDescBy]
    rw [hempty]
  · unfold runGetMeetingDetails
    rw [hidb]
    rfl
  · unfold runGetMeetingTranscript
    rw [hidb]
    rfl
  · unfold runGetMeetingDocuments
    rw [hidb]
    rfl
  · rcases hpt with hpt | hpt | hpt <;> subst hpt <;> rfl

/-- Witness for C7 at concrete parameters. -/
theorem missingCacheDegrades_witness :
    loadCache none false { epochMs := 0, utcYear := 1970, utcMonth := 0 } (fun _ => none) (fun _ => none) = Except.ok (emptyCacheData { epochMs := 0, utcYear := 1970, utcMonth := 0 })
    ∧ runSearch (emptyCacheData { epochMs := 0, utcYear := 1970, utcMonth := 0 }) "roadmap" (some (some 10)) = Except.ok []
    ∧ runGetMeetingDetails (emptyCacheData { epochMs := 0, utcYear := 1970, utcMonth := 0 }) "m1" = Except.ok none
    ∧ runGetMeetingTranscript (emptyCacheData { epochMs := 0, utcYear := 1970, utcMonth := 0 }) "m1" = Except.ok none
    ∧ runGetMeetingDocuments (emptyCacheData { epochMs := 0, utcYear := 1970, utcMonth := 0 }) "m1" = Except.ok []
    ∧ analyzeMeetingPatterns (emptyCacheData { epochMs := 0, utcYear := 1970, utcMonth := 0 }) "topics" none none (fun _ => none) = Except.ok (emptyPatternResult "topics") :=
  missingCacheDegrades false { epochMs := 0, utcYear := 1970, utcMonth := 0 }
    (fun _ => none) (fun _ => none) "roadmap" (by decide) 10 (by norm_num)
    "m1" (by decide) "topics" (Or.inr (Or.inr rfl))

/-- C8 counterexample: the limit `2.5` is not a positive integer, yet the
search handler accepts it (the code only rejects `NaN` and non-positive
numbers) — the query executes instead of being rejected. -/
theorem searchLimit_fractional_accepted :
    (¬ ∃ n : Nat, 0 < n ∧ ((5 : Rat)/2) = (n : Rat))
    ∧ runSearch (emptyCacheData { epochMs := 0, utcYear := 1970, utcMonth := 0 })
        "x" (some (some ((5 : Rat)/2))) = Except.ok [] := by
  constructor
  · rintro ⟨n, hpos, heq⟩
    have h2 : (5 : Rat) = (n : Rat) * 2 := by
      rw [div_eq_iff (by norm_num : (2 : Rat) ≠ 0)] at heq
      exact heq
    have h3 : (5 : Nat) = n * 2 := by exact_mod_cast h2
    omega
  · unfold runSearch
    have hqb : (("x" : String) == "") = false := by decide
    rw [hqb]
    simp only [Bool.false_eq_true, if_neg, not_false_iff]
    rw [if_neg (by norm_num : ¬((5 : Rat)/2 ≤ 0))]
    have hempty : searchMeetings
        (emptyCacheData { epochMs := 0, utcYear := 1970, utcMonth := 0 }) "x"
        ((5 : Rat)/2).floor = [] := by
      simp [searchMeetings, emptyCacheData, stableSortDescBy]
    rw [hempty]

/-- C8, amended: `Search` rejects its limit argument with the validation
error exactly when the converted number is `NaN` or non-positive; any
positive number — integer or not — is accepted (and `slice` truncates a
fractional limit).  In particular non-integer positive limits are not
rejected. -/
theorem searchLimitValidation (data : CacheData) (query : String) (hq : query ≠ "")
    (limitArg : Option Rat) :
    ((∃ results, runSearch data query (some limitArg) = Except.ok results)
      ↔ ∃ l, limitArg = some l ∧ 0 < l)
    ∧ ((limitArg = none ∨ ∃ l, limitArg = some l ∧ l ≤ 0) →
      runSearch data query (some limitArg) = Except.error errLimitPositive) := by
  have hqb : (query == "") = false := by simpa using hq
  constructor
  · cases limitArg with
    | none =>
      unfold runSearch
      rw [hqb]
      simp only [Bool.false_eq_true, if_neg, not_false_iff]
      constructor
      · rintro ⟨r, hr⟩
        simp at hr
      · rintro ⟨l, hl, _⟩
        simp at hl
    | some l =>
      unfold runSearch
      rw [hqb]
      simp only [Bool.false_eq_true, if_neg, not_false_iff]
      by_cases hl : l ≤ 0
      · rw [if_pos hl]
        constructor
        · rintro ⟨r, hr⟩
          simp at hr
        · rintro ⟨l2, hl2, hpos⟩
          have hll : l = l2 := Option.some.inj hl2
          subst hll
          exact absurd hpos (not_lt.mpr hl)
      · rw [if_neg hl]
        constructor
        · intro _
          exact ⟨l, rfl, lt_of_not_le hl⟩
        · intro _
          exact ⟨searchMeetings data query l.floor, rfl⟩
  · intro hrej
    unfold runSearch
    rw [hqb]
    simp only [Bool.false_eq_true, if_neg, not_false_iff]
    rcases hrej with hrej | ⟨l, hl, hle⟩
    · subst hrej
      rfl
    · subst hl
      show (if l ≤ 0 then Except.error errLimitPositive
        else Except.ok (searchMeetings data query l.floor)) = Except.error errLimitPositive
      rw [if_pos hle]

/-- Witness for the amended C8: a `NaN` limit is rejected with the
validation error before the query runs. -/
theorem searchLimitValidation_witness :
    runSearch (emptyCacheData { epochMs := 0, utcYear := 1970, utcMonth := 0 })
      "x" (some none) = Except.error errLimitPositive :=
  (searchLimitValidation (emptyCacheData { epochMs := 0, utcYear := 1970, utcMonth := 0 })
    "x" (by decide) none).2 (Or.inl rfl)
